import Mathlib

/-
  Verification of the MIrA repository's RDF conversion tool
  (tools/convert_to_rdf/convert_to_rdf.py) and of the convergence-failure
  handling in the network-metrics scripts
  (tools/network_graphs/data-model{1,2}/network_metrics_model{1,2}.py).

  Strings are modelled as lists of characters.  The Python regex character
  classes are modelled over ASCII, which covers all behaviour relevant to
  the verified properties.
-/

set_option maxHeartbeats 1000000
set_option linter.unusedVariables false

namespace MiRA

abbrev Str := List Char

/-- ASCII model of the regex word-character class (used by word boundaries). -/
def isWordChar (c : Char) : Bool := c.isAlphanum || c = '_'

/-- ASCII model of the regex whitespace class. -/
def isWs (c : Char) : Bool :=
  c = ' ' || c = '\t' || c = '\n' || c = '\r' || c = Char.ofNat 11 || c = Char.ofNat 12

mutual
/-- Replace each maximal whitespace run by a single space
    (the body of the substitution in `norm`). -/
def wsCollapse : Str → Str
  | [] => []
  | c :: cs => if isWs c then ' ' :: wsSkip cs else c :: wsCollapse cs

/-- After emitting the single space for a whitespace run, skip its remainder. -/
def wsSkip : Str → Str
  | [] => []
  | c :: cs => if isWs c then wsSkip cs else c :: wsCollapse cs
end

/-- Python `str.strip()` on the ASCII model. -/
def pyStrip (s : Str) : Str :=
  ((s.dropWhile isWs).reverse.dropWhile isWs).reverse

/-- `norm`: strip, then collapse every whitespace run to one space. -/
def norm (s : Str) : Str := wsCollapse (pyStrip s)

/-- `norm` applied to an optional text node (`findtext` result):
    a missing node behaves like the empty string (`(s or "").strip()`). -/
def normOpt (o : Option Str) : Str := norm (o.getD [])

/-- Characters kept verbatim by `safe_id` (the class `[A-Za-z0-9._-]`). -/
def isSafeChar (c : Char) : Bool := c.isAlphanum || c = '.' || c = '_' || c = '-'

mutual
/-- Replace each maximal run of characters outside `[A-Za-z0-9._-]`
    by a single underscore (the substitution inside `safe_id`). -/
def subRuns : Str → Str
  | [] => []
  | c :: cs => if isSafeChar c then c :: subRuns cs else '_' :: skipRun cs

/-- Skip the remainder of a run of unsafe characters. -/
def skipRun : Str → Str
  | [] => []
  | c :: cs => if isSafeChar c then c :: subRuns cs else skipRun cs
end

/-- `safe_id`: URI-safe identifier filter; a falsy input becomes `"unknown"`. -/
def safe_id (s : Str) : Str :=
  if s = [] then "unknown".toList else subRuns s

/-- Is the position just before `s` a word boundary coming from the right,
    i.e. is the next character absent or a non-word character? -/
def boundaryHead (s : Str) : Bool :=
  match s with
  | [] => true
  | c :: _ => !(isWordChar c)

/-- Leftmost-match regex search loop.  `M` tries to match a token anchored at
    the current position; the Boolean flag records whether the previous
    character is a word character (so that `¬flag` is the word-boundary test
    before a token starting with a word character). -/
def scanTok {α : Type} (M : Str → Option α) : Bool → Str → Option α
  | _, [] => none
  | flag, c :: cs =>
    match if flag then none else M (c :: cs) with
    | some y => some y
    | none => scanTok M (isWordChar c) cs

/-- Matcher for `\b(\d{4,})\b` anchored at the head: the maximal digit run,
    provided it has length at least 4 and is followed by a word boundary.
    (Backtracking to a shorter run always fails the trailing `\b`, because the
    following character would be a digit.) -/
def try4 (s : Str) : Option Str :=
  let r := s.takeWhile Char.isDigit
  if 4 ≤ r.length ∧ boundaryHead (s.drop r.length) = true then some r else none

/-- Matcher for `\b(\d{3})\b` anchored at the head: exactly three digits
    followed by a word boundary (a fourth digit makes the trailing `\b` fail). -/
def try3 (s : Str) : Option Str :=
  let r := s.takeWhile Char.isDigit
  if r.length = 3 ∧ boundaryHead (s.drop r.length) = true then some r else none

/-- Matcher for `\bQ\d+\b` anchored at the head. -/
def tryQ (s : Str) : Option Str :=
  match s with
  | c :: rest =>
    if c = 'Q' then
      let r := rest.takeWhile Char.isDigit
      if r ≠ [] ∧ boundaryHead (rest.drop r.length) = true then some ('Q' :: r) else none
    else none
  | [] => none

/-- `extract_qid`: first occurrence of `\bQ\d+\b` in the text. -/
def extract_qid (s : Str) : Option Str := scanTok tryQ false s

/-- `extract_qid` applied to an optional text node (`None` yields `None`). -/
def extract_qidOpt (o : Option Str) : Option Str := o.bind extract_qid

/-- Python `str.zfill(4)`. -/
def zfill4 (r : Str) : Str := List.replicate (4 - r.length) '0' ++ r

/-- `extract_gYear`: first `\b(\d{4,})\b` run truncated to its first 4 digits,
    else the first `\b(\d{3})\b` run left-padded with zeros, else absent. -/
def extract_gYear (s : Str) : Option Str :=
  match scanTok try4 false s with
  | some r => some (r.take 4)
  | none =>
    match scanTok try3 false s with
    | some r => some (zfill4 r)
    | none => none

/-- `extract_gYear` applied to an optional text node. -/
def extract_gYearOpt (o : Option Str) : Option Str := o.bind extract_gYear

/-- `normalize_title_key`: lower-case, drop apostrophe-like marks, map the
    remaining characters outside `[a-z0-9\s]` to spaces, collapse whitespace. -/
def normalize_title_key (s : Str) : Str :=
  let t1 := (norm s).map Char.toLower
  let t2 := t1.filter (fun c => !(c = '\'' || c = '’' || c = '`'))
  let t3 := t2.map (fun c => if c.isLower || c.isDigit || isWs c then c else ' ')
  pyStrip (wsCollapse t3)

/-- Python truthiness of an optional string (`None` and `""` are falsy). -/
def pyTruthyOpt (o : Option Str) : Bool :=
  match o with
  | some s => decide (s ≠ [])
  | none => false

/-- The string carried by an optional value (only used under `pyTruthyOpt`). -/
def pyVal (o : Option Str) : Str := o.getD []

/-- Python `a or b` on optional strings. -/
def pyOrOpt (a b : Option Str) : Option Str :=
  match a with
  | some s => if s ≠ [] then some s else b
  | none => b

-- ----------------------------------------------------------------------
-- Ordered dictionaries (Python dict: insertion order, overwrite in place)
-- ----------------------------------------------------------------------

abbrev Dict (α : Type) := List (Str × α)

/-- `d[k] = v` on a Python dict: overwrite in place, else append. -/
def upsert {α : Type} (d : Dict α) (k : Str) (v : α) : Dict α :=
  if d.any (fun p => decide (p.1 = k)) then
    d.map (fun p => if p.1 = k then (k, v) else p)
  else d ++ [(k, v)]

/-- `d.get(k)`. -/
def getD? {α : Type} (d : Dict α) (k : Str) : Option α :=
  (d.find? (fun p => decide (p.1 = k))).map Prod.snd

-- ----------------------------------------------------------------------
-- Input record shapes (one per XML record element)
-- ----------------------------------------------------------------------

/-- A `<person>` element of people.xml.  `pid` is `p.get("id") or ""`. -/
structure Person where
  pid : Str
  firstNames : Option Str
  surname : Option Str
  xref : Option Str
deriving DecidableEq

mutual
/-- A `<place>` element of places.xml (recursive tree). -/
inductive PlaceNode where
  | mk : Str → Option Str → List (Option Str) → PlaceForest → PlaceNode

/-- The list of sibling `<place>` elements (`findall("place")`). -/
inductive PlaceForest where
  | nil : PlaceForest
  | cons : PlaceNode → PlaceForest → PlaceForest
end

def PlaceNode.pid : PlaceNode → Str
  | .mk i _ _ _ => i

def PlaceNode.xref : PlaceNode → Option Str
  | .mk _ x _ _ => x

def PlaceNode.nameTexts : PlaceNode → List (Option Str)
  | .mk _ _ n _ => n

def PlaceNode.children : PlaceNode → PlaceForest
  | .mk _ _ _ c => c

/-- The comprehension `[norm(n.text) for n in el.findall("name")
    if n.text and norm(n.text)]`. -/
def placeNames (raw : List (Option Str)) : List Str :=
  raw.filterMap (fun o =>
    match o with
    | some t => if t ≠ [] ∧ norm t ≠ [] then some (norm t) else none
    | none => none)

def PlaceNode.names (el : PlaceNode) : List Str := placeNames el.nameTexts

/-- A `<text>` element of texts.xml. -/
structure TextRec where
  tid : Str
  title : Option Str
  xref : Option Str
deriving DecidableEq

/-- A `<library>` element of libraries.xml. -/
structure LibraryRec where
  lid : Str
  name : Option Str
  xref : Option Str
deriving DecidableEq

/-- A `<manuscript>` element of mss_compiled.xml.  `mid = []` models a missing
    or empty id attribute (the uuid fallback case).  `originPlace` is `some a`
    when `./history/origin/place` exists, with `a` its optional id attribute;
    `linkHref` is `some a` when `./refs/link` exists, with `a` its optional
    href attribute. -/
structure Manuscript where
  mid : Str
  shelfmarkRaw : Option Str
  libraryID : Option Str
  termPost : Option Str
  termAnte : Option Str
  originPlace : Option (Option Str)
  foliosRaw : Option Str
  pageHRaw : Option Str
  pageWRaw : Option Str
  linkHref : Option (Option Str)
  itemTitles : List Str
deriving DecidableEq

-- ----------------------------------------------------------------------
-- Authority loaders
-- ----------------------------------------------------------------------

/-- Join non-empty name parts with a single space, then normalise
    (`norm(" ".join(filter(None, [firstNames, surname])))`). -/
def joinSpace : List Str → Str
  | [] => []
  | [s] => s
  | s :: rest => s ++ ' ' :: joinSpace rest

def personLabel (p : Person) : Str :=
  norm (joinSpace (([p.firstNames, p.surname].filterMap id).filter (fun s => s ≠ [])))

structure PeopleTbls where
  qid_by_id : Dict (Option Str)
  label_by_id : Dict Str
deriving DecidableEq

/-- One iteration of the `load_people` loop. -/
def peopleStep (t : PeopleTbls) (p : Person) : PeopleTbls :=
  let label := personLabel p
  let qid := extract_qidOpt p.xref
  let t1 : PeopleTbls := { t with qid_by_id := upsert t.qid_by_id p.pid qid }
  if label ≠ [] then { t1 with label_by_id := upsert t1.label_by_id p.pid label }
  else t1

/-- `load_people`. -/
def load_people (ps : List Person) : PeopleTbls :=
  ps.foldl peopleStep ⟨[], []⟩

structure PlaceTbls where
  qid_by_id : Dict (Option Str)
  names_by_id : Dict (List Str)
deriving DecidableEq

/-- The external identifier the loader resolves for a place node. -/
def placeQid (el : PlaceNode) : Option Str := extract_qidOpt el.xref

mutual
/-- The inner `walk` of `load_places`: register the node when its id is
    non-empty, then visit the children (pre-order). -/
def walkPlace (t : PlaceTbls) (el : PlaceNode) : PlaceTbls :=
  match el with
  | .mk pid xref nts children =>
    let t1 := if pid ≠ [] then
        { qid_by_id := upsert t.qid_by_id pid (extract_qidOpt xref),
          names_by_id := upsert t.names_by_id pid (placeNames nts) }
      else t
    walkPlaces t1 children

def walkPlaces (t : PlaceTbls) (els : PlaceForest) : PlaceTbls :=
  match els with
  | .nil => t
  | .cons el rest => walkPlaces (walkPlace t el) rest
end

/-- `load_places` over the forest of top-level place elements. -/
def load_places (forest : PlaceForest) : PlaceTbls := walkPlaces ⟨[], []⟩ forest

structure TextTbls where
  qid_by_id : Dict (Option Str)
  title_by_id : Dict Str
  qid_by_norm_title : Dict Str
deriving DecidableEq

/-- One iteration of the `load_texts` loop. -/
def textStep (t : TextTbls) (tr : TextRec) : TextTbls :=
  let title := normOpt tr.title
  let qid := extract_qidOpt tr.xref
  let t1 : TextTbls := { t with qid_by_id := upsert t.qid_by_id tr.tid qid }
  if title ≠ [] then
    let t2 : TextTbls := { t1 with title_by_id := upsert t1.title_by_id tr.tid title }
    match qid with
    | some q =>
      { t2 with qid_by_norm_title := upsert t2.qid_by_norm_title (normalize_title_key title) q }
    | none => t2
  else t1

/-- `load_texts`. -/
def load_texts (ts : List TextRec) : TextTbls :=
  ts.foldl textStep ⟨[], [], []⟩

structure LibTbls where
  name_by_id : Dict Str
  qid_by_id : Dict (Option Str)
deriving DecidableEq

/-- One iteration of the `load_libraries` loop
    (`name = norm(...) or lid`; only non-empty ids register). -/
def libStep (t : LibTbls) (l : LibraryRec) : LibTbls :=
  let name := if normOpt l.name ≠ [] then normOpt l.name else l.lid
  let qid := extract_qidOpt l.xref
  if l.lid ≠ [] then
    { name_by_id := upsert t.name_by_id l.lid name,
      qid_by_id := upsert t.qid_by_id l.lid qid }
  else t

/-- `load_libraries`. -/
def load_libraries (ls : List LibraryRec) : LibTbls :=
  ls.foldl libStep ⟨[], []⟩

-- ----------------------------------------------------------------------
-- RDF triples
-- ----------------------------------------------------------------------

/-- An RDF subject (also used for entity objects): either an entity in the
    external `wd:` namespace or a locally minted `mira:` entity.  `local_uri`
    stores the sanitised key. -/
inductive Subj where
  | wd (q : Str)
  | mira (kind : Str) (sid : Str)
deriving DecidableEq

/-- The fixed predicate vocabulary used by the emitter. -/
inductive Pred where
  | rdfType | rdfsLabel | skosPrefLabel | skosAltLabel
  | p31 | p217 | p195 | p571 | p1071 | p1104 | p2048 | p2049 | p953 | p1574
deriving DecidableEq

/-- An RDF object: an entity or a (possibly typed) literal. -/
inductive Obj where
  | ent (s : Subj)
  | lit (s : Str)
  | litYear (s : Str)
  | litInt (n : Nat)
  | litDec (s : Str)
  | litUri (s : Str)
deriving DecidableEq

abbrev Triple := Subj × Pred × Obj

/-- `local_uri(kind, key)`. -/
def local_uri (kind : Str) (key : Str) : Subj := .mira kind (safe_id key)

def Q_MANUSCRIPT : Str := "Q87167".toList
def Q_HUMAN : Str := "Q5".toList
def Q_LIBRARY : Str := "Q7075".toList
def Q_ORG : Str := "Q43229".toList
def Q_WORK : Str := "Q7725634".toList
def Q_PLACE : Str := "Q618123".toList

-- ----------------------------------------------------------------------
-- Authority emission (main, lines 306-351)
-- ----------------------------------------------------------------------

/-- Triples emitted for one entry of `people_qid_by_id.items()`. -/
def emitPersonEntry (labels : Dict Str) (pid : Str) (qid : Option Str) : List Triple :=
  let label := getD? labels pid
  let subj := if pyTruthyOpt qid then Subj.wd (pyVal qid) else local_uri "person".toList pid
  (subj, .rdfType, .ent (.wd Q_HUMAN)) ::
  (if pyTruthyOpt label then
    [(subj, .rdfsLabel, .lit (pyVal label)), (subj, .skosPrefLabel, .lit (pyVal label))]
   else [])

/-- The people emission loop. -/
def emitPeople (t : PeopleTbls) : List Triple :=
  t.qid_by_id.flatMap (fun p => emitPersonEntry t.label_by_id p.1 p.2)

/-- The triples `emit_place` adds for the node itself (before recursing);
    also returns the updated uuid-draw counter. -/
def emitPlaceOwn (qidTbl : Dict (Option Str)) (tok : Nat → Str) (el : PlaceNode)
    (n : Nat) : List Triple × Nat :=
  let pid := el.pid
  let qid : Option Str := (getD? qidTbl pid).join
  let names := el.names
  let keyn : Str × Nat :=
    if pid ≠ [] then (pid, n)
    else match names with
      | nm :: _ => (nm, n)
      | [] => ("place_".toList ++ tok n, n + 1)
  let subj := if pyTruthyOpt qid then Subj.wd (pyVal qid)
              else local_uri "place".toList keyn.1
  let own : List Triple :=
    (subj, .rdfType, .ent (.wd Q_PLACE)) ::
    (match names with
     | nm :: rest =>
       (subj, .rdfsLabel, .lit nm) :: (subj, .skosPrefLabel, .lit nm) ::
         rest.map (fun x => (subj, .skosAltLabel, .lit x))
     | [] => [])
  (own, keyn.2)

mutual
/-- `emit_place` (main, lines 315-330), threading the uuid-draw counter. -/
def emit_place (qidTbl : Dict (Option Str)) (tok : Nat → Str) (el : PlaceNode)
    (n : Nat) : List Triple × Nat :=
  match el with
  | .mk pid xref nts children =>
    let own := emitPlaceOwn qidTbl tok (.mk pid xref nts children) n
    let rec' := emit_places qidTbl tok children own.2
    (own.1 ++ rec'.1, rec'.2)

def emit_places (qidTbl : Dict (Option Str)) (tok : Nat → Str)
    (els : PlaceForest) (n : Nat) : List Triple × Nat :=
  match els with
  | .nil => ([], n)
  | .cons el rest =>
    let a := emit_place qidTbl tok el n
    let b := emit_places qidTbl tok rest a.2
    (a.1 ++ b.1, b.2)
end

/-- Triples emitted for one entry of `text_qid_by_id.items()`. -/
def emitTextEntry (titles : Dict Str) (tid : Str) (qid : Option Str) : List Triple :=
  let title := getD? titles tid
  let subj := if pyTruthyOpt qid then Subj.wd (pyVal qid) else local_uri "work".toList tid
  (subj, .rdfType, .ent (.wd Q_WORK)) ::
  (if pyTruthyOpt title then
    [(subj, .rdfsLabel, .lit (pyVal title)), (subj, .skosPrefLabel, .lit (pyVal title))]
   else [])

/-- The texts emission loop. -/
def emitTexts (t : TextTbls) : List Triple :=
  t.qid_by_id.flatMap (fun p => emitTextEntry t.title_by_id p.1 p.2)

/-- Triples emitted for one entry of `lib_name_by_id.items()`. -/
def emitLibraryEntry (qids : Dict (Option Str)) (lid : Str) (name : Str) : List Triple :=
  let qid : Option Str := (getD? qids lid).join
  let subj := if pyTruthyOpt qid then Subj.wd (pyVal qid) else local_uri "library".toList lid
  [(subj, .rdfType, .ent (.wd Q_LIBRARY)),
   (subj, .rdfType, .ent (.wd Q_ORG)),
   (subj, .rdfsLabel, .lit name),
   (subj, .skosPrefLabel, .lit name)]

/-- The libraries emission loop. -/
def emitLibraries (t : LibTbls) : List Triple :=
  t.name_by_id.flatMap (fun p => emitLibraryEntry t.qid_by_id p.1 p.2)

-- ----------------------------------------------------------------------
-- Manuscript emission (main, lines 358-432)
-- ----------------------------------------------------------------------

/-- First run of digits anywhere in the text (`re.search(r"\d+", s)`). -/
def firstDigitRun : Str → Option Str
  | [] => none
  | c :: cs =>
    if c.isDigit then some ((c :: cs).takeWhile Char.isDigit) else firstDigitRun cs

/-- First match of `\d+(?:\.\d+)?` anywhere in the text. -/
def firstDecimal : Str → Option Str
  | [] => none
  | c :: cs =>
    if c.isDigit then
      let r := (c :: cs).takeWhile Char.isDigit
      match (c :: cs).drop r.length with
      | '.' :: rest2 =>
        let f := rest2.takeWhile Char.isDigit
        if f ≠ [] then some (r ++ '.' :: f) else some r
      | _ => some r
    else firstDigitRun cs

/-- `int(...)` on a digit string. -/
def natFromDigits (s : Str) : Nat :=
  s.foldl (fun a c => a * 10 + (c.toNat - '0'.toNat)) 0

/-- The manuscript label (main, lines 382-385):
    `label = shelf or f"MIRA manuscript {mid}"`, overridden by
    `f"{lib_name} — {shelf}"` when both shelf and library name are truthy. -/
def msLabel (shelf : Str) (libName : Option Str) (mid : Str) : Str :=
  if shelf ≠ [] ∧ pyTruthyOpt libName = true then
    pyVal libName ++ " — ".toList ++ shelf
  else if shelf ≠ [] then shelf
  else "MIRA manuscript ".toList ++ mid

/-- The shelf-mark statement (P217), emitted only for a truthy shelf mark. -/
def msShelf (subj : Subj) (shelf : Str) : List Triple :=
  if shelf ≠ [] then [(subj, .p217, .lit shelf)] else []

/-- The collection statement (P195): external library subject when the
    library's own external id is known, else the local library subject. -/
def msCollection (lib : LibTbls) (subj : Subj) (libraryID : Option Str) :
    List Triple :=
  if pyTruthyOpt libraryID then
    match (getD? lib.qid_by_id (pyVal libraryID)).join with
    | some q =>
      if q ≠ [] then [(subj, .p195, .ent (.wd q))]
      else [(subj, .p195, .ent (local_uri "library".toList (pyVal libraryID)))]
    | none => [(subj, .p195, .ent (local_uri "library".toList (pyVal libraryID)))]
  else []

/-- The manuscript's label pair (rdfs:label and skos:prefLabel). -/
def msLabelTriples (subj : Subj) (label : Str) : List Triple :=
  [(subj, .rdfsLabel, .lit label), (subj, .skosPrefLabel, .lit label)]

/-- The inception statement (P571) from the first-available date field. -/
def msYear (subj : Subj) (termPost termAnte : Option Str) : List Triple :=
  match extract_gYearOpt (pyOrOpt termPost termAnte) with
  | some y => [(subj, .p571, .litYear y)]
  | none => []

/-- The place-of-creation statement (P1071). -/
def msOriginPlace (placeQidTbl : Dict (Option Str)) (subj : Subj)
    (originPlace : Option (Option Str)) : List Triple :=
  match originPlace with
  | some pidAttr =>
    let pid := pidAttr.getD []
    if pid ≠ [] then
      match (getD? placeQidTbl pid).join with
      | some q =>
        if q ≠ [] then [(subj, .p1071, .ent (.wd q))]
        else [(subj, .p1071, .ent (local_uri "place".toList pid))]
      | none => [(subj, .p1071, .ent (local_uri "place".toList pid))]
    else []
  | none => []

/-- The folio-count statement (P1104). -/
def msFolios (subj : Subj) (foliosRaw : Option Str) : List Triple :=
  let folStr := normOpt foliosRaw
  match (if folStr ≠ [] then firstDigitRun folStr else none) with
  | some r => [(subj, .p1104, .litInt (natFromDigits r))]
  | none => []

/-- A dimension statement (P2048 or P2049). -/
def msDim (subj : Subj) (raw : Option Str) (p : Pred) : List Triple :=
  let str := normOpt raw
  match (if str ≠ [] then firstDecimal str else none) with
  | some r => [(subj, p, .litDec r)]
  | none => []

/-- The full-work-URL statement (P953). -/
def msLink (subj : Subj) (linkHref : Option (Option Str)) : List Triple :=
  match linkHref with
  | some (some h) => if h ≠ [] then [(subj, .p953, .litUri h)] else []
  | _ => []

/-- The exemplar-of-work statements (P1574), one lookup per content-item
    title. -/
def exemplarTriples (titleIdx : Dict Str) (subj : Subj) (titles : List Str) :
    List Triple :=
  titles.flatMap (fun raw =>
    let t := norm raw
    if t ≠ [] then
      match getD? titleIdx (normalize_title_key t) with
      | some q => if q ≠ [] then [(subj, .p1574, .ent (.wd q))] else []
      | none => []
    else [])

/-- Triples emitted for one manuscript record, threading the uuid counter. -/
def emit_manuscript (lib : LibTbls) (placeQidTbl : Dict (Option Str))
    (titleIdx : Dict Str) (tok : Nat → Str) (ms : Manuscript) (n : Nat) :
    List Triple × Nat :=
  let midn : Str × Nat :=
    if ms.mid ≠ [] then (ms.mid, n) else ("ms_".toList ++ tok n, n + 1)
  let mid := midn.1
  let subj := local_uri "manuscript".toList mid
  let shelf := normOpt ms.shelfmarkRaw
  let libName : Option Str :=
    if pyTruthyOpt ms.libraryID then getD? lib.name_by_id (pyVal ms.libraryID) else none
  let label := msLabel shelf libName mid
  ((subj, .p31, .ent (.wd Q_MANUSCRIPT)) ::
     (msShelf subj shelf ++ msCollection lib subj ms.libraryID ++
      msLabelTriples subj label ++ msYear subj ms.termPost ms.termAnte ++
      msOriginPlace placeQidTbl subj ms.originPlace ++ msFolios subj ms.foliosRaw ++
      msDim subj ms.pageHRaw .p2048 ++ msDim subj ms.pageWRaw .p2049 ++
      msLink subj ms.linkHref ++ exemplarTriples titleIdx subj ms.itemTitles),
   midn.2)

/-- The manuscript loop, threading the uuid counter. -/
def emit_manuscripts (lib : LibTbls) (placeQidTbl : Dict (Option Str))
    (titleIdx : Dict Str) (tok : Nat → Str) : List Manuscript → Nat → List Triple × Nat
  | [], n => ([], n)
  | ms :: rest, n =>
    let a := emit_manuscript lib placeQidTbl titleIdx tok ms n
    let b := emit_manuscripts lib placeQidTbl titleIdx tok rest a.2
    (a.1 ++ b.1, b.2)

-- ----------------------------------------------------------------------
-- The whole conversion run
-- ----------------------------------------------------------------------

/-- The parsed contents of the five input files. -/
structure Input where
  people : List Person
  places : PlaceForest
  texts : List TextRec
  libraries : List LibraryRec
  mss : List Manuscript

/-- All triples added to the graph in one run of `main`, in emission order.
    `placeTok` and `msTok` supply the successive random uuid tokens drawn by
    the place-key fallback and the manuscript-id fallback. -/
def runConvert (inp : Input) (placeTok msTok : Nat → Str) : List Triple :=
  let pT := load_people inp.people
  let plT := load_places inp.places
  let tT := load_texts inp.texts
  let lT := load_libraries inp.libraries
  emitPeople pT ++ (emit_places plT.qid_by_id placeTok inp.places 0).1 ++
    emitTexts tT ++ emitLibraries lT ++
    (emit_manuscripts lT plT.qid_by_id tT.qid_by_norm_title msTok inp.mss 0).1

/-- `main` with fallible parsing: each argument is `none` when the
    corresponding file is missing or unparsable (`etree.parse` raises).
    Serialisation happens exactly once, producing the `.ok` payload; any
    parse failure aborts before the output is written. -/
def mainModel (peopleF : Option (List Person)) (placesF : Option PlaceForest)
    (textsF : Option (List TextRec)) (libsF : Option (List LibraryRec))
    (mssF : Option (List Manuscript)) (placeTok msTok : Nat → Str) :
    Except Unit (List Triple) := do
  let people ← match peopleF with | some x => Except.ok x | none => Except.error ()
  let places ← match placesF with | some x => Except.ok x | none => Except.error ()
  let texts ← match textsF with | some x => Except.ok x | none => Except.error ()
  let libs ← match libsF with | some x => Except.ok x | none => Except.error ()
  let mss ← match mssF with | some x => Except.ok x | none => Except.error ()
  Except.ok (runConvert ⟨people, places, texts, libs, mss⟩ placeTok msTok)

-- ----------------------------------------------------------------------
-- Network-metrics scripts: convergence handling (C9)
-- ----------------------------------------------------------------------

/-- The networkx exception raised by power-iteration methods. -/
inductive NxErr where
  | powerIterationFailedConvergence
deriving DecidableEq

/-- `nx.eigenvector_centrality`: the library call, abstracted over whether the
    power iteration converges and over the values it would return. -/
def nx_eigenvector_centrality (nodes : List Str) (converges : Bool)
    (vals : List (Str × Rat)) : Except NxErr (List (Str × Rat)) :=
  if converges then .ok vals else .error .powerIterationFailedConvergence

/-- `nx.pagerank`: same abstraction. -/
def nx_pagerank (nodes : List Str) (converges : Bool)
    (vals : List (Str × Rat)) : Except NxErr (List (Str × Rat)) :=
  if converges then .ok vals else .error .powerIterationFailedConvergence

/-- `safe_eigenvector_centrality` (network_metrics_model2.py, lines 78-86):
    on convergence failure return `{n: 0.0 for n in G.nodes()}`. -/
def safe_eigenvector_centrality (nodes : List Str) (converges : Bool)
    (vals : List (Str × Rat)) : List (Str × Rat) :=
  match nx_eigenvector_centrality nodes converges vals with
  | .ok d => d
  | .error _ => nodes.map (fun n => (n, 0))

/-- The pagerank/eigenvector portion of `compute_metrics`
    (network_metrics_model1.py, lines 201-208): pagerank is called bare,
    eigenvector centrality is wrapped in try/except returning zeros. -/
def compute_metrics_model1 (nodes : List Str) (prConv eigConv : Bool)
    (prVals eigVals : List (Str × Rat)) :
    Except NxErr (List (Str × Rat) × List (Str × Rat)) := do
  let pr ← nx_pagerank nodes prConv prVals
  let eig :=
    match nx_eigenvector_centrality nodes eigConv eigVals with
    | .ok d => d
    | .error _ => nodes.map (fun n => (n, 0))
  .ok (pr, eig)

/-- The pagerank/eigenvector portion of `main` in network_metrics_model2.py
    (lines 166-170): pagerank bare, eigenvector via the safe wrapper. -/
def compute_metrics_model2 (nodes : List Str) (prConv eigConv : Bool)
    (prVals eigVals : List (Str × Rat)) :
    Except NxErr (List (Str × Rat) × List (Str × Rat)) := do
  let pr ← nx_pagerank nodes prConv prVals
  let eig := safe_eigenvector_centrality nodes eigConv eigVals
  .ok (pr, eig)

-- ----------------------------------------------------------------------
-- Dictionary lemmas
-- ----------------------------------------------------------------------

theorem getD?_nil {α : Type} (k : Str) : getD? ([] : Dict α) k = none := rfl

theorem getD?_cons {α : Type} (p : Str × α) (d : Dict α) (k : Str) :
    getD? (p :: d) k = if p.1 = k then some p.2 else getD? d k := by
  by_cases h : p.1 = k <;> simp [getD?, List.find?_cons, h]

theorem getD?_append {α : Type} (d1 d2 : Dict α) (k : Str) :
    getD? (d1 ++ d2) k =
      match getD? d1 k with
      | some v => some v
      | none => getD? d2 k := by
  induction d1 with
  | nil => simp [getD?]
  | cons p d ih =>
    by_cases h : p.1 = k <;> simp [getD?_cons, h, ih]

theorem getD?_map_overwrite {α : Type} (d : Dict α) (k : Str) (v : α) (k' : Str)
    (h : k' ≠ k) :
    getD? (d.map (fun p => if p.1 = k then (k, v) else p)) k' = getD? d k' := by
  induction d with
  | nil => simp [getD?]
  | cons p d ih =>
    by_cases hp : p.1 = k
    · simp [getD?_cons, hp, Ne.symm h, ih]
    · simp [getD?_cons, hp, ih]

theorem getD?_map_self {α : Type} (d : Dict α) (k : Str) (v : α)
    (h : d.any (fun p => decide (p.1 = k)) = true) :
    getD? (d.map (fun p => if p.1 = k then (k, v) else p)) k = some v := by
  induction d with
  | nil => simp at h
  | cons p d ih =>
    by_cases hp : p.1 = k
    · simp [getD?_cons, hp]
    · simp only [List.any_cons, Bool.or_eq_true, decide_eq_true_eq] at h
      rcases h with h | h
      · exact absurd h hp
      · simp [getD?_cons, hp, ih h]

theorem getD?_not_mem {α : Type} (d : Dict α) (k : Str)
    (h : d.any (fun p => decide (p.1 = k)) = false) :
    getD? d k = none := by
  induction d with
  | nil => rfl
  | cons p d ih =>
    simp only [List.any_cons, Bool.or_eq_false_iff, decide_eq_false_iff_not] at h
    rw [getD?_cons, if_neg h.1]
    exact ih h.2

theorem getD?_upsert {α : Type} (d : Dict α) (k : Str) (v : α) (k' : Str) :
    getD? (upsert d k v) k' = if k' = k then some v else getD? d k' := by
  unfold upsert
  by_cases hmem : d.any (fun p => decide (p.1 = k)) = true
  · simp only [hmem, if_true]
    by_cases h : k' = k
    · subst h; simp [getD?_map_self d k' v hmem]
    · simp [h, getD?_map_overwrite d k v k' h]
  · rw [Bool.not_eq_true] at hmem
    simp only [hmem, Bool.false_eq_true, if_false]
    rw [getD?_append]
    by_cases h : k' = k
    · subst h
      simp [getD?_not_mem d k' hmem, getD?_cons]
    · simp only [h, if_false]
      cases hd : getD? d k' with
      | some w => simp
      | none => simp [getD?_cons, Ne.symm h, getD?]

-- ----------------------------------------------------------------------
-- Lemmas about safe_id (C8)
-- ----------------------------------------------------------------------

theorem subRuns_skipRun_safe (s : Str) :
    (∀ c ∈ subRuns s, isSafeChar c = true) ∧ (∀ c ∈ skipRun s, isSafeChar c = true) := by
  induction s with
  | nil =>
    constructor <;> intro c hc <;> simp [subRuns, skipRun] at hc
  | cons a s ih =>
    constructor
    · intro c hc
      by_cases h : isSafeChar a = true
      · rw [subRuns, if_pos h] at hc
        rcases List.mem_cons.mp hc with rfl | hc
        · exact h
        · exact ih.1 c hc
      · rw [subRuns, if_neg h] at hc
        rcases List.mem_cons.mp hc with rfl | hc
        · decide
        · exact ih.2 c hc
    · intro c hc
      by_cases h : isSafeChar a = true
      · rw [skipRun, if_pos h] at hc
        rcases List.mem_cons.mp hc with rfl | hc
        · exact h
        · exact ih.1 c hc
      · rw [skipRun, if_neg h] at hc
        exact ih.2 c hc

theorem subRuns_cons_ne (a : Char) (s : Str) : subRuns (a :: s) ≠ [] := by
  by_cases h : isSafeChar a = true <;> simp [subRuns, h]

theorem skipRun_bad_append (run rest : Str)
    (hbad : ∀ c ∈ run, isSafeChar c = false) :
    skipRun (run ++ rest) = skipRun rest := by
  induction run with
  | nil => rfl
  | cons c run ih =>
    have hc : isSafeChar c = false := hbad c (List.mem_cons_self c run)
    rw [List.cons_append, skipRun, if_neg (by simp [hc])]
    exact ih (fun d hd => hbad d (List.mem_cons_of_mem c hd))

theorem skipRun_eq_subRuns (rest : Str)
    (hgood : ∀ d, rest.head? = some d → isSafeChar d = true) :
    skipRun rest = subRuns rest := by
  cases rest with
  | nil => rfl
  | cons d rest =>
    have hd : isSafeChar d = true := hgood d rfl
    rw [skipRun, if_pos hd, subRuns, if_pos hd]

theorem subRuns_bad_run (run rest : Str) (hne : run ≠ [])
    (hbad : ∀ c ∈ run, isSafeChar c = false)
    (hgood : ∀ d, rest.head? = some d → isSafeChar d = true) :
    subRuns (run ++ rest) = '_' :: subRuns rest := by
  cases run with
  | nil => exact absurd rfl hne
  | cons c run =>
    have hc : isSafeChar c = false := hbad c (List.mem_cons_self c run)
    rw [List.cons_append, subRuns, if_neg (by simp [hc]),
      skipRun_bad_append run rest (fun d hd => hbad d (List.mem_cons_of_mem c hd)),
      skipRun_eq_subRuns rest hgood]

/-- C8: the local-identifier sanitisation `safe_id` always produces a
    non-empty string over the alphabet `[A-Za-z0-9._-]`; a character kept by
    the filter passes through unchanged, every maximal run of other
    characters becomes a single underscore, and an empty (falsy) input
    becomes the literal token `"unknown"`, never an empty path segment. -/
theorem C8_safe_id_total :
    (safe_id [] = "unknown".toList) ∧
    (∀ s : Str, safe_id s ≠ []) ∧
    (∀ s : Str, ∀ c ∈ safe_id s, isSafeChar c = true) ∧
    (∀ (c : Char) (s : Str), isSafeChar c = true → subRuns (c :: s) = c :: subRuns s) ∧
    (∀ run rest : Str, run ≠ [] → (∀ c ∈ run, isSafeChar c = false) →
      (∀ d, rest.head? = some d → isSafeChar d = true) →
      subRuns (run ++ rest) = '_' :: subRuns rest) := by
  refine ⟨rfl, ?_, ?_, ?_, subRuns_bad_run⟩
  · intro s
    cases s with
    | nil => simp [safe_id]
    | cons a s => simpa [safe_id] using subRuns_cons_ne a s
  · intro s c hc
    cases s with
    | nil =>
      rw [show safe_id ([] : Str) = ['u', 'n', 'k', 'n', 'o', 'w', 'n'] from rfl] at hc
      simp only [List.mem_cons, List.not_mem_nil, or_false] at hc
      rcases hc with rfl | rfl | rfl | rfl | rfl | rfl | rfl <;> decide
    | cons a s =>
      rw [safe_id, if_neg (by simp)] at hc
      exact (subRuns_skipRun_safe (a :: s)).1 c hc
  · intro c s h
    rw [subRuns, if_pos h]

/-- Witness for C8 at concrete inputs. -/
theorem C8_safe_id_total_witness :
    safe_id "a b!!c".toList ≠ [] ∧
    isSafeChar 'b' = true ∧
    subRuns (" !?".toList ++ "b3".toList) = '_' :: subRuns "b3".toList :=
  ⟨C8_safe_id_total.2.1 _,
   by decide,
   C8_safe_id_total.2.2.2.2 " !?".toList "b3".toList (by decide) (by decide) (by decide)⟩

-- ----------------------------------------------------------------------
-- C9: convergence handling in the network-metrics scripts
-- ----------------------------------------------------------------------

/-- C9 counterexample: when `nx.pagerank` fails to converge, both scripts
    abort with the uncaught exception instead of falling back to a
    zero-valued result (only eigenvector centrality has a fallback). -/
theorem C9_pagerank_aborts_counterexample :
    compute_metrics_model1 ["a".toList] false true [("a".toList, 1)] [("a".toList, 1)]
        = .error .powerIterationFailedConvergence ∧
    compute_metrics_model2 ["a".toList] false true [("a".toList, 1)] [("a".toList, 1)]
        = .error .powerIterationFailedConvergence := by
  constructor <;> rfl

/-- C9 (amended): eigenvector centrality falls back to an all-zeros result
    on convergence failure and the run continues (in both scripts), while a
    PageRank convergence failure propagates and aborts the computation. -/
theorem C9_convergence_policy :
    (∀ (nodes : List Str) (eigVals : List (Str × Rat)),
      safe_eigenvector_centrality nodes false eigVals
        = nodes.map (fun n => (n, (0 : Rat)))) ∧
    (∀ (nodes : List Str) (prVals eigVals : List (Str × Rat)),
      compute_metrics_model1 nodes true false prVals eigVals
          = .ok (prVals, nodes.map (fun n => (n, (0 : Rat)))) ∧
      compute_metrics_model2 nodes true false prVals eigVals
          = .ok (prVals, nodes.map (fun n => (n, (0 : Rat))))) ∧
    (∀ (nodes : List Str) (prVals eigVals : List (Str × Rat)) (e : Bool),
      compute_metrics_model1 nodes false e prVals eigVals
          = .error .powerIterationFailedConvergence ∧
      compute_metrics_model2 nodes false e prVals eigVals
          = .error .powerIterationFailedConvergence) := by
  refine ⟨fun _ _ => rfl, fun _ _ _ => ⟨rfl, rfl⟩, fun _ _ _ _ => ⟨rfl, rfl⟩⟩

-- ----------------------------------------------------------------------
-- C6: fatal input errors abort before any output
-- ----------------------------------------------------------------------

/-- C6: if any of the five record-set files is missing or unparsable, the
    run errors out and no output is produced; when all five parse, the run
    serialises exactly the triples of the full conversion, once. -/
theorem C6_abort_before_output :
    ∀ (pf : Option (List Person)) (plf : Option PlaceForest)
      (tf : Option (List TextRec)) (lf : Option (List LibraryRec))
      (mf : Option (List Manuscript)) (placeTok msTok : Nat → Str),
      ((pf = none ∨ plf = none ∨ tf = none ∨ lf = none ∨ mf = none) →
        mainModel pf plf tf lf mf placeTok msTok = .error ()) ∧
      (∀ p pl t l m, pf = some p → plf = some pl → tf = some t → lf = some l →
        mf = some m →
        mainModel pf plf tf lf mf placeTok msTok
          = .ok (runConvert ⟨p, pl, t, l, m⟩ placeTok msTok)) := by
  intro pf plf tf lf mf placeTok msTok
  constructor
  · intro h
    rcases pf with _ | p
    · rfl
    rcases plf with _ | pl
    · rfl
    rcases tf with _ | t
    · rfl
    rcases lf with _ | l
    · rfl
    rcases mf with _ | m
    · rfl
    simp at h
  · rintro p pl t l m rfl rfl rfl rfl rfl
    rfl

/-- Witness for C6: a missing people file aborts; complete inputs succeed. -/
theorem C6_abort_before_output_witness :
    mainModel none (some .nil) (some []) (some []) (some [])
        (fun _ => []) (fun _ => []) = .error () ∧
    mainModel (some []) (some .nil) (some []) (some []) (some [])
        (fun _ => []) (fun _ => [])
      = .ok (runConvert ⟨[], .nil, [], [], []⟩ (fun _ => []) (fun _ => [])) :=
  ⟨(C6_abort_before_output none (some .nil) (some []) (some []) (some [])
      (fun _ => []) (fun _ => [])).1 (Or.inl rfl),
   (C6_abort_before_output (some []) (some .nil) (some []) (some []) (some [])
      (fun _ => []) (fun _ => [])).2 [] .nil [] [] [] rfl rfl rfl rfl rfl⟩

-- ----------------------------------------------------------------------
-- Generic leftmost-match lemmas for scanTok (C2, C5)
-- ----------------------------------------------------------------------

/-- The word-flag after scanning a prefix: `flagOf f u` is `f` when `u` is
    empty, and otherwise says whether the last character of `u` is a word
    character. -/
def flagOf (f : Bool) : Str → Bool
  | [] => f
  | c :: u => flagOf (isWordChar c) u

theorem scanTok_sound {α : Type} (M : Str → Option α) :
    ∀ (s : Str) (flag : Bool) (y : α), scanTok M flag s = some y →
      ∃ u t, s = u ++ t ∧ flagOf flag u = false ∧ M t = some y := by
  intro s
  induction s with
  | nil => intro flag y h; simp [scanTok] at h
  | cons c cs ih =>
    intro flag y h
    rw [scanTok] at h
    cases hI : (if flag then none else M (c :: cs)) with
    | some z =>
      rw [hI] at h
      have hy : z = y := by injection h
      have hflag : flag = false := by
        cases flag
        · rfl
        · simp at hI
      refine ⟨[], c :: cs, rfl, by simpa [flagOf] using hflag, ?_⟩
      rw [hflag] at hI
      simpa [hy] using hI
    | none =>
      rw [hI] at h
      obtain ⟨u', t, hs, hf, hM⟩ := ih (isWordChar c) y h
      exact ⟨c :: u', t, by simp [hs], by simpa [flagOf] using hf, hM⟩

theorem scanTok_none {α : Type} (M : Str → Option α) (hMnil : M [] = none) :
    ∀ (s : Str) (flag : Bool), scanTok M flag s = none →
      ∀ u t, s = u ++ t → flagOf flag u = false → M t = none := by
  intro s
  induction s with
  | nil =>
    intro flag h u t hs hf
    have ht : t = [] := by
      rcases List.append_eq_nil.mp hs.symm with ⟨_, ht⟩
      exact ht
    rw [ht]; exact hMnil
  | cons c cs ih =>
    intro flag h u t hs hf
    rw [scanTok] at h
    cases hI : (if flag then none else M (c :: cs)) with
    | some z => rw [hI] at h; exact absurd h (by simp)
    | none =>
      rw [hI] at h
      cases u with
      | nil =>
        have ht : t = c :: cs := by simpa using hs.symm
        have hflag : flag = false := by simpa [flagOf] using hf
        rw [hflag] at hI
        rw [ht]; simpa using hI
      | cons a u' =>
        have hac : c = a := (List.cons_eq_cons.mp (by simpa using hs)).1
        have hcs : cs = u' ++ t := (List.cons_eq_cons.mp (by simpa using hs)).2
        refine ih (isWordChar c) h u' t hcs ?_
        have hfa := hf
        rw [← hac] at hfa
        simpa [flagOf] using hfa

theorem scanTok_first {α : Type} (M : Str → Option α) :
    ∀ (s : Str) (flag : Bool) (y : α) (u t : Str) (y' : α),
      scanTok M flag s = some y →
      s = u ++ t → flagOf flag u = false → M t = some y' →
      (∀ u' t', s = u' ++ t' → flagOf flag u' = false → (M t').isSome = true →
        u.length ≤ u'.length) →
      y = y' := by
  intro s
  induction s with
  | nil => intro flag y u t y' h; simp [scanTok] at h
  | cons c cs ih =>
    intro flag y u t y' h hs hf hM hmin
    rw [scanTok] at h
    cases hI : (if flag then none else M (c :: cs)) with
    | some z =>
      rw [hI] at h
      have hy : z = y := by injection h
      have hflag : flag = false := by
        cases flag
        · rfl
        · simp at hI
      have hu : u = [] := by
        have hle := hmin [] (c :: cs) rfl (by simpa [flagOf] using hflag)
          (by rw [hflag] at hI; simp [show M (c :: cs) = some z by simpa using hI])
        exact List.length_eq_zero.mp (Nat.le_zero.mp hle)
      have ht : t = c :: cs := by rw [hu] at hs; simpa using hs.symm
      rw [hflag] at hI
      have : M (c :: cs) = some z := by simpa using hI
      rw [ht, this] at hM
      have : z = y' := by injection hM
      rw [← hy, this]
    | none =>
      rw [hI] at h
      cases u with
      | nil =>
        exfalso
        have ht : t = c :: cs := by simpa using hs.symm
        have hflag : flag = false := by simpa [flagOf] using hf
        rw [hflag] at hI
        rw [ht] at hM
        rw [hM] at hI
        simp at hI
      | cons a u' =>
        have hac : c = a := (List.cons_eq_cons.mp (by simpa using hs)).1
        have hcs : cs = u' ++ t := (List.cons_eq_cons.mp (by simpa using hs)).2
        refine ih (isWordChar c) y u' t y' h hcs ?_ hM ?_
        · have hfa := hf
          rw [← hac] at hfa
          simpa [flagOf] using hfa
        · intro u'' t'' hcs' hf'' hsome
          have := hmin (c :: u'') t'' (by simp [hcs']) (by simpa [flagOf] using hf'') hsome
          simpa using Nat.succ_le_succ_iff.mp (by simpa using this)

-- ----------------------------------------------------------------------
-- Positional qualification predicates (spec-level view of the regexes)
-- ----------------------------------------------------------------------

/-- The maximal digit run starting at position `i`. -/
def runAt (s : Str) (i : Nat) : Str := (s.drop i).takeWhile Char.isDigit

/-- No word character immediately before position `i` (the left `\b`). -/
def noWordBefore (s : Str) (i : Nat) : Bool := !(flagOf false (s.take i))

/-- Position `i` starts a word-boundary-delimited run of 4 or more digits. -/
def qual4At (s : Str) (i : Nat) : Bool :=
  noWordBefore s i && decide (4 ≤ (runAt s i).length) &&
    boundaryHead ((s.drop i).drop (runAt s i).length)

/-- Position `i` starts a word-boundary-delimited run of exactly 3 digits. -/
def qual3At (s : Str) (i : Nat) : Bool :=
  noWordBefore s i && decide ((runAt s i).length = 3) &&
    boundaryHead ((s.drop i).drop (runAt s i).length)

/-- The `Q`-digits token starting at position `i` (empty when absent). -/
def qTokenAt (s : Str) (i : Nat) : Str :=
  match s.drop i with
  | c :: rest => if c = 'Q' then 'Q' :: rest.takeWhile Char.isDigit else []
  | [] => []

/-- Position `i` starts a word-boundary-delimited `Q`-digits token. -/
def qualQAt (s : Str) (i : Nat) : Bool :=
  noWordBefore s i &&
    (match s.drop i with
     | c :: rest =>
       decide (c = 'Q') && decide (rest.takeWhile Char.isDigit ≠ []) &&
         boundaryHead (rest.drop (rest.takeWhile Char.isDigit).length)
     | [] => false)

-- ----------------------------------------------------------------------
-- Matcher characterisations and position bridges
-- ----------------------------------------------------------------------

theorem try4_eq_some {t r : Str} :
    try4 t = some r ↔
      r = t.takeWhile Char.isDigit ∧ 4 ≤ r.length ∧
        boundaryHead (t.drop r.length) = true := by
  have hdef : try4 t =
      (if 4 ≤ (t.takeWhile Char.isDigit).length ∧
          boundaryHead (t.drop (t.takeWhile Char.isDigit).length) = true
       then some (t.takeWhile Char.isDigit) else none) := rfl
  rw [hdef]
  constructor
  · intro h
    split at h
    next hcond =>
      have hr : t.takeWhile Char.isDigit = r := by injection h
      exact ⟨hr.symm, hr ▸ hcond.1, hr ▸ hcond.2⟩
    next => exact absurd h (by simp)
  · rintro ⟨rfl, h2, h3⟩
    rw [if_pos ⟨h2, h3⟩]

theorem try3_eq_some {t r : Str} :
    try3 t = some r ↔
      r = t.takeWhile Char.isDigit ∧ r.length = 3 ∧
        boundaryHead (t.drop r.length) = true := by
  have hdef : try3 t =
      (if (t.takeWhile Char.isDigit).length = 3 ∧
          boundaryHead (t.drop (t.takeWhile Char.isDigit).length) = true
       then some (t.takeWhile Char.isDigit) else none) := rfl
  rw [hdef]
  constructor
  · intro h
    split at h
    next hcond =>
      have hr : t.takeWhile Char.isDigit = r := by injection h
      exact ⟨hr.symm, hr ▸ hcond.1, hr ▸ hcond.2⟩
    next => exact absurd h (by simp)
  · rintro ⟨rfl, h2, h3⟩
    rw [if_pos ⟨h2, h3⟩]

theorem tryQ_eq_some {t y : Str} :
    tryQ t = some y ↔
      ∃ rest, t = 'Q' :: rest ∧ rest.takeWhile Char.isDigit ≠ [] ∧
        boundaryHead (rest.drop (rest.takeWhile Char.isDigit).length) = true ∧
        y = 'Q' :: rest.takeWhile Char.isDigit := by
  cases t with
  | nil => simp [tryQ]
  | cons c rest =>
    have hdef : tryQ (c :: rest) =
        (if c = 'Q' then
          (if rest.takeWhile Char.isDigit ≠ [] ∧
              boundaryHead (rest.drop (rest.takeWhile Char.isDigit).length) = true
           then some ('Q' :: rest.takeWhile Char.isDigit) else none)
         else none) := rfl
    rw [hdef]
    by_cases hc : c = 'Q'
    · subst hc
      rw [if_pos rfl]
      constructor
      · intro h
        split at h
        next hcond =>
          have hy : 'Q' :: rest.takeWhile Char.isDigit = y := by injection h
          exact ⟨rest, rfl, hcond.1, hcond.2, hy.symm⟩
        next => exact absurd h (by simp)
      · rintro ⟨rest', hrest, h1, h2, rfl⟩
        have : rest' = rest := (List.cons_eq_cons.mp hrest).2.symm
        subst this
        rw [if_pos ⟨h1, h2⟩]
    · rw [if_neg hc]
      constructor
      · intro h; exact absurd h (by simp)
      · rintro ⟨rest', hrest, -, -, -⟩
        exact absurd (List.cons_eq_cons.mp hrest).1 hc

theorem try4_nil : try4 [] = none := by decide

theorem try3_nil : try3 [] = none := by decide

theorem tryQ_nil : tryQ [] = none := by decide

theorem noWordBefore_flag {s : Str} {i : Nat} :
    noWordBefore s i = true ↔ flagOf false (s.take i) = false := by
  unfold noWordBefore
  cases flagOf false (s.take i) <;> simp

theorem qual4At_try4 {s : Str} {i : Nat} (h : qual4At s i = true) :
    noWordBefore s i = true ∧ try4 (s.drop i) = some (runAt s i) := by
  unfold qual4At at h
  simp only [Bool.and_eq_true, decide_eq_true_eq] at h
  obtain ⟨⟨hb, h4⟩, h3⟩ := h
  exact ⟨hb, try4_eq_some.mpr ⟨rfl, h4, h3⟩⟩

theorem qual4At_intro {s : Str} {i : Nat} {r : Str}
    (hb : noWordBefore s i = true) (h : try4 (s.drop i) = some r) :
    qual4At s i = true ∧ runAt s i = r := by
  obtain ⟨hr, h4, hbd⟩ := try4_eq_some.mp h
  have hrun : runAt s i = r := hr.symm
  refine ⟨?_, hrun⟩
  unfold qual4At
  simp only [Bool.and_eq_true, decide_eq_true_eq]
  exact ⟨⟨hb, hrun ▸ h4⟩, hrun ▸ hbd⟩

theorem qual3At_try3 {s : Str} {i : Nat} (h : qual3At s i = true) :
    noWordBefore s i = true ∧ try3 (s.drop i) = some (runAt s i) := by
  unfold qual3At at h
  simp only [Bool.and_eq_true, decide_eq_true_eq] at h
  obtain ⟨⟨hb, h4⟩, h3⟩ := h
  exact ⟨hb, try3_eq_some.mpr ⟨rfl, h4, h3⟩⟩

theorem qual3At_intro {s : Str} {i : Nat} {r : Str}
    (hb : noWordBefore s i = true) (h : try3 (s.drop i) = some r) :
    qual3At s i = true ∧ runAt s i = r := by
  obtain ⟨hr, h4, hbd⟩ := try3_eq_some.mp h
  have hrun : runAt s i = r := hr.symm
  refine ⟨?_, hrun⟩
  unfold qual3At
  simp only [Bool.and_eq_true, decide_eq_true_eq]
  exact ⟨⟨hb, hrun ▸ h4⟩, hrun ▸ hbd⟩

theorem qualQAt_tryQ {s : Str} {i : Nat} (h : qualQAt s i = true) :
    noWordBefore s i = true ∧ tryQ (s.drop i) = some (qTokenAt s i) := by
  unfold qualQAt at h
  simp only [Bool.and_eq_true] at h
  obtain ⟨hb, h2⟩ := h
  refine ⟨hb, ?_⟩
  cases hd : s.drop i with
  | nil => rw [hd] at h2; simp at h2
  | cons c rest =>
    rw [hd] at h2
    simp only [Bool.and_eq_true, decide_eq_true_eq] at h2
    obtain ⟨⟨hc, hne⟩, hbd⟩ := h2
    subst hc
    rw [tryQ_eq_some]
    refine ⟨rest, rfl, hne, hbd, ?_⟩
    simp [qTokenAt, hd]

theorem qualQAt_intro {s : Str} {i : Nat} {y : Str}
    (hb : noWordBefore s i = true) (h : tryQ (s.drop i) = some y) :
    qualQAt s i = true ∧ qTokenAt s i = y := by
  obtain ⟨rest, hrest, hne, hbd, rfl⟩ := tryQ_eq_some.mp h
  constructor
  · simp [qualQAt, hb, hrest, hne, hbd]
  · simp [qTokenAt, hrest]

theorem qual4At_lt_length {s : Str} {i : Nat} (h : qual4At s i = true) :
    i < s.length := by
  obtain ⟨-, h4⟩ := qual4At_try4 h
  obtain ⟨hr, hlen, -⟩ := try4_eq_some.mp h4
  by_contra hge
  push_neg at hge
  have hnil : s.drop i = [] := List.drop_eq_nil_iff.mpr hge
  rw [hnil] at hr
  simp at hr
  rw [hr] at hlen
  simp at hlen

theorem qual3At_lt_length {s : Str} {i : Nat} (h : qual3At s i = true) :
    i < s.length := by
  obtain ⟨-, h3⟩ := qual3At_try3 h
  obtain ⟨hr, hlen, -⟩ := try3_eq_some.mp h3
  by_contra hge
  push_neg at hge
  have hnil : s.drop i = [] := List.drop_eq_nil_iff.mpr hge
  rw [hnil] at hr
  simp at hr
  rw [hr] at hlen
  simp at hlen

theorem qualQAt_lt_length {s : Str} {i : Nat} (h : qualQAt s i = true) :
    i < s.length := by
  obtain ⟨-, hq⟩ := qualQAt_tryQ h
  obtain ⟨rest, hrest, -, -, -⟩ := tryQ_eq_some.mp hq
  by_contra hge
  push_neg at hge
  have hnil : s.drop i = [] := List.drop_eq_nil_iff.mpr hge
  rw [hnil] at hrest
  exact absurd hrest (by simp)

theorem pos_of_decomp {s u t : Str} (hs : s = u ++ t) (hf : flagOf false u = false) :
    noWordBefore s u.length = true ∧ s.drop u.length = t := by
  subst hs
  constructor
  · unfold noWordBefore
    rw [List.take_left, hf]
    rfl
  · exact List.drop_left u t

theorem scan4_sound {s r : Str} (h : scanTok try4 false s = some r) :
    ∃ i, qual4At s i = true ∧ runAt s i = r := by
  obtain ⟨u, t, hs, hf, hM⟩ := scanTok_sound try4 s false r h
  obtain ⟨hb, hd⟩ := pos_of_decomp hs hf
  exact ⟨u.length, qual4At_intro hb (by rw [hd]; exact hM)⟩

theorem scan3_sound {s r : Str} (h : scanTok try3 false s = some r) :
    ∃ i, qual3At s i = true ∧ runAt s i = r := by
  obtain ⟨u, t, hs, hf, hM⟩ := scanTok_sound try3 s false r h
  obtain ⟨hb, hd⟩ := pos_of_decomp hs hf
  exact ⟨u.length, qual3At_intro hb (by rw [hd]; exact hM)⟩

theorem scanQ_sound {s y : Str} (h : scanTok tryQ false s = some y) :
    ∃ i, qualQAt s i = true ∧ qTokenAt s i = y := by
  obtain ⟨u, t, hs, hf, hM⟩ := scanTok_sound tryQ s false y h
  obtain ⟨hb, hd⟩ := pos_of_decomp hs hf
  exact ⟨u.length, qualQAt_intro hb (by rw [hd]; exact hM)⟩

theorem scan4_none {s : Str} (h : scanTok try4 false s = none) :
    ∀ i, qual4At s i = false := by
  intro i
  cases hq : qual4At s i with
  | false => rfl
  | true =>
    obtain ⟨hb, htry⟩ := qual4At_try4 hq
    have := scanTok_none try4 try4_nil s false h (s.take i) (s.drop i)
      (List.take_append_drop i s).symm (noWordBefore_flag.mp hb)
    rw [this] at htry
    exact absurd htry (by simp)

theorem scan3_none {s : Str} (h : scanTok try3 false s = none) :
    ∀ i, qual3At s i = false := by
  intro i
  cases hq : qual3At s i with
  | false => rfl
  | true =>
    obtain ⟨hb, htry⟩ := qual3At_try3 hq
    have := scanTok_none try3 try3_nil s false h (s.take i) (s.drop i)
      (List.take_append_drop i s).symm (noWordBefore_flag.mp hb)
    rw [this] at htry
    exact absurd htry (by simp)

theorem scanQ_none {s : Str} (h : scanTok tryQ false s = none) :
    ∀ i, qualQAt s i = false := by
  intro i
  cases hq : qualQAt s i with
  | false => rfl
  | true =>
    obtain ⟨hb, htry⟩ := qualQAt_tryQ hq
    have := scanTok_none tryQ tryQ_nil s false h (s.take i) (s.drop i)
      (List.take_append_drop i s).symm (noWordBefore_flag.mp hb)
    rw [this] at htry
    exact absurd htry (by simp)

theorem scan4_first {s : Str} {i : Nat} (h : qual4At s i = true)
    (hmin : ∀ j < i, qual4At s j = false) :
    scanTok try4 false s = some (runAt s i) := by
  have hi := qual4At_lt_length h
  obtain ⟨hb, htry⟩ := qual4At_try4 h
  cases hscan : scanTok try4 false s with
  | none =>
    have := scanTok_none try4 try4_nil s false hscan (s.take i) (s.drop i)
      (List.take_append_drop i s).symm (noWordBefore_flag.mp hb)
    rw [this] at htry
    exact absurd htry (by simp)
  | some y =>
    have heq := scanTok_first try4 s false y (s.take i) (s.drop i) (runAt s i) hscan
      (List.take_append_drop i s).symm (noWordBefore_flag.mp hb) htry ?_
    · rw [heq]
    · intro u' t' hs' hf' hsome
      rw [List.length_take_of_le (le_of_lt hi)]
      by_contra hlt
      push_neg at hlt
      obtain ⟨r, hr⟩ := Option.isSome_iff_exists.mp hsome
      obtain ⟨hb', hd'⟩ := pos_of_decomp hs' hf'
      have hq' := qual4At_intro hb' (by rw [hd']; exact hr)
      exact absurd hq'.1 (by simp [hmin u'.length hlt])

theorem scan3_first {s : Str} {i : Nat} (h : qual3At s i = true)
    (hmin : ∀ j < i, qual3At s j = false) :
    scanTok try3 false s = some (runAt s i) := by
  have hi := qual3At_lt_length h
  obtain ⟨hb, htry⟩ := qual3At_try3 h
  cases hscan : scanTok try3 false s with
  | none =>
    have := scanTok_none try3 try3_nil s false hscan (s.take i) (s.drop i)
      (List.take_append_drop i s).symm (noWordBefore_flag.mp hb)
    rw [this] at htry
    exact absurd htry (by simp)
  | some y =>
    have heq := scanTok_first try3 s false y (s.take i) (s.drop i) (runAt s i) hscan
      (List.take_append_drop i s).symm (noWordBefore_flag.mp hb) htry ?_
    · rw [heq]
    · intro u' t' hs' hf' hsome
      rw [List.length_take_of_le (le_of_lt hi)]
      by_contra hlt
      push_neg at hlt
      obtain ⟨r, hr⟩ := Option.isSome_iff_exists.mp hsome
      obtain ⟨hb', hd'⟩ := pos_of_decomp hs' hf'
      have hq' := qual3At_intro hb' (by rw [hd']; exact hr)
      exact absurd hq'.1 (by simp [hmin u'.length hlt])

theorem scanQ_first {s : Str} {i : Nat} (h : qualQAt s i = true)
    (hmin : ∀ j < i, qualQAt s j = false) :
    scanTok tryQ false s = some (qTokenAt s i) := by
  have hi := qualQAt_lt_length h
  obtain ⟨hb, htry⟩ := qualQAt_tryQ h
  cases hscan : scanTok tryQ false s with
  | none =>
    have := scanTok_none tryQ tryQ_nil s false hscan (s.take i) (s.drop i)
      (List.take_append_drop i s).symm (noWordBefore_flag.mp hb)
    rw [this] at htry
    exact absurd htry (by simp)
  | some y =>
    have heq := scanTok_first tryQ s false y (s.take i) (s.drop i) (qTokenAt s i) hscan
      (List.take_append_drop i s).symm (noWordBefore_flag.mp hb) htry ?_
    · rw [heq]
    · intro u' t' hs' hf' hsome
      rw [List.length_take_of_le (le_of_lt hi)]
      by_contra hlt
      push_neg at hlt
      obtain ⟨r, hr⟩ := Option.isSome_iff_exists.mp hsome
      obtain ⟨hb', hd'⟩ := pos_of_decomp hs' hf'
      have hq' := qualQAt_intro hb' (by rw [hd']; exact hr)
      exact absurd hq'.1 (by simp [hmin u'.length hlt])

-- ----------------------------------------------------------------------
-- C2: year extraction
-- ----------------------------------------------------------------------

/-- C2 counterexample: "MS1234" contains the four-digit run "1234"
    (it decomposes as "MS" ++ "1234"), yet the extractor returns nothing,
    because the regex `\b(\d{4,})\b` requires a word boundary and 'S' is a
    word character.  The claim says such a run still counts and the first
    four digits are returned. -/
theorem C2_counterexample :
    "MS1234".toList = "MS".toList ++ "1234".toList ∧
    ("1234".toList.all Char.isDigit ∧ 4 ≤ "1234".toList.length) ∧
    extract_gYear "MS1234".toList = none ∧
    extract_gYear "MS1234".toList ≠ some "1234".toList := by
  refine ⟨by decide, by decide, by decide, by decide⟩

/-- C2 (amended): the year extractor returns the first four digits of the
    first **word-boundary-delimited** run of four or more digits; otherwise
    the zero-padded first word-boundary-delimited run of exactly three
    digits; otherwise nothing.  "circa 1200-1250" → "1200", "9th century" →
    absent, "850/851" → "0850"; a digit run embedded in letters (as in
    "MS1234") does **not** count because it lacks word boundaries. -/
theorem C2_gYear_policy :
    (extract_gYear "circa 1200-1250".toList = some "1200".toList) ∧
    (extract_gYear "9th century".toList = none) ∧
    (extract_gYear "850/851".toList = some "0850".toList) ∧
    (extract_gYear "MS1234".toList = none) ∧
    (∀ (s y : Str), extract_gYear s = some y →
       (∃ i, qual4At s i = true ∧ y = (runAt s i).take 4) ∨
       ((∀ i, qual4At s i = false) ∧
         ∃ i, qual3At s i = true ∧ y = zfill4 (runAt s i))) ∧
    (∀ s : Str, (∀ i, i < s.length → qual4At s i = false) →
       (∀ i, i < s.length → qual3At s i = false) → extract_gYear s = none) ∧
    (∀ (s : Str) (i : Nat), qual4At s i = true → (∀ j, j < i → qual4At s j = false) →
       extract_gYear s = some ((runAt s i).take 4)) ∧
    (∀ (s : Str) (i : Nat), (∀ j, j < s.length → qual4At s j = false) →
       qual3At s i = true → (∀ j, j < i → qual3At s j = false) →
       extract_gYear s = some (zfill4 (runAt s i))) := by
  refine ⟨by decide, by decide, by decide, by decide, ?_, ?_, ?_, ?_⟩
  · intro s y h
    unfold extract_gYear at h
    cases h4 : scanTok try4 false s with
    | some r =>
      rw [h4] at h
      have hy : y = r.take 4 := by
        have : some (r.take 4) = some y := h
        injection this with this
        exact this.symm
      obtain ⟨i, hq, hrun⟩ := scan4_sound h4
      exact Or.inl ⟨i, hq, by rw [hy, hrun]⟩
    | none =>
      rw [h4] at h
      cases h3 : scanTok try3 false s with
      | some r =>
        rw [h3] at h
        have hy : y = zfill4 r := by
          have : some (zfill4 r) = some y := h
          injection this with this
          exact this.symm
        obtain ⟨i, hq, hrun⟩ := scan3_sound h3
        exact Or.inr ⟨scan4_none h4, i, hq, by rw [hy, hrun]⟩
      | none => rw [h3] at h; exact absurd h (by simp)
  · intro s hq4 hq3
    unfold extract_gYear
    cases h4 : scanTok try4 false s with
    | some r =>
      obtain ⟨i, hq, -⟩ := scan4_sound h4
      exact absurd hq (by simp [hq4 i (qual4At_lt_length hq)])
    | none =>
      cases h3 : scanTok try3 false s with
      | some r =>
        obtain ⟨i, hq, -⟩ := scan3_sound h3
        exact absurd hq (by simp [hq3 i (qual3At_lt_length hq)])
      | none => rfl
  · intro s i hq hmin
    unfold extract_gYear
    rw [scan4_first hq hmin]
  · intro s i hq4 hq hmin
    unfold extract_gYear
    have h4 : scanTok try4 false s = none := by
      cases h4 : scanTok try4 false s with
      | none => rfl
      | some r =>
        obtain ⟨j, hj, -⟩ := scan4_sound h4
        exact absurd hj (by simp [hq4 j (qual4At_lt_length hj)])
    rw [h4, scan3_first hq hmin]

/-- Witness for C2 at concrete inputs. -/
theorem C2_gYear_policy_witness :
    qual4At "circa 1200-1250".toList 6 = true ∧
    extract_gYear "circa 1200-1250".toList
      = some ((runAt "circa 1200-1250".toList 6).take 4) :=
  ⟨by decide,
   C2_gYear_policy.2.2.2.2.2.2.1 "circa 1200-1250".toList 6 (by decide)
     (fun j hj => by interval_cases j <;> decide)⟩

-- ----------------------------------------------------------------------
-- C5: external-identifier extraction
-- ----------------------------------------------------------------------

/-- C5 counterexample: "xQ123" contains an occurrence of uppercase 'Q'
    followed by digits (at index 1), yet the extractor is unresolved,
    because `\bQ\d+\b` needs a word boundary before 'Q' and 'x' is a word
    character.  The claim says the first such occurrence is returned. -/
theorem C5_counterexample :
    "xQ123".toList = "x".toList ++ ('Q' :: "123".toList) ∧
    extract_qid "xQ123".toList = none ∧
    extract_qid "xQ123".toList ≠ some "Q123".toList := by
  refine ⟨by decide, by decide, by decide⟩

/-- C5 (amended): `extract_qid` returns the first **word-boundary-delimited**
    token consisting of uppercase 'Q' followed by one or more digits
    ("see also Q12345, alt." yields "Q12345"); a 'Q'-digits occurrence
    embedded in word characters (as in "xQ123") does not match, and the
    absence of any match leaves the record unresolved (not an error). -/
theorem C5_qid_policy :
    (extract_qid "see also Q12345, alt.".toList = some "Q12345".toList) ∧
    (extract_qid "xQ123".toList = none) ∧
    (∀ (s y : Str), extract_qid s = some y →
       ∃ i, qualQAt s i = true ∧ y = qTokenAt s i) ∧
    (∀ s : Str, (∀ i, i < s.length → qualQAt s i = false) → extract_qid s = none) ∧
    (∀ (s : Str) (i : Nat), qualQAt s i = true → (∀ j, j < i → qualQAt s j = false) →
       extract_qid s = some (qTokenAt s i)) := by
  refine ⟨by decide, by decide, ?_, ?_, ?_⟩
  · intro s y h
    obtain ⟨i, hq, htok⟩ := scanQ_sound h
    exact ⟨i, hq, htok.symm⟩
  · intro s hq
    cases h : scanTok tryQ false s with
    | some r =>
      obtain ⟨i, hqi, -⟩ := scanQ_sound h
      exact absurd hqi (by simp [hq i (qualQAt_lt_length hqi)])
    | none => exact h
  · intro s i hq hmin
    exact scanQ_first hq hmin

/-- Witness for C5 at concrete inputs. -/
theorem C5_qid_policy_witness :
    qualQAt "see also Q12345, alt.".toList 9 = true ∧
    extract_qid "see also Q12345, alt.".toList
      = some (qTokenAt "see also Q12345, alt.".toList 9) :=
  ⟨by decide,
   C5_qid_policy.2.2.2.2 "see also Q12345, alt.".toList 9 (by decide)
     (fun j hj => by interval_cases j <;> decide)⟩

-- ----------------------------------------------------------------------
-- Loader invariants: stored external identifiers are never empty
-- ----------------------------------------------------------------------

theorem extract_qid_ne_nil {s y : Str} (h : extract_qid s = some y) : y ≠ [] := by
  obtain ⟨u, t, -, -, hM⟩ := scanTok_sound tryQ s false y h
  obtain ⟨rest, -, -, -, rfl⟩ := tryQ_eq_some.mp hM
  simp

theorem extract_qidOpt_ne_nil {o : Option Str} {y : Str}
    (h : extract_qidOpt o = some y) : y ≠ [] := by
  cases o with
  | none => simp [extract_qidOpt] at h
  | some s => exact extract_qid_ne_nil (by simpa [extract_qidOpt] using h)

/-- Values a loader stores in a qid table: `some q` only for non-empty `q`. -/
def QidOk (o : Option Str) : Prop := ∀ q, o = some q → q ≠ []

theorem QidOk_extract (o : Option Str) : QidOk (extract_qidOpt o) :=
  fun _ hq => extract_qidOpt_ne_nil hq

theorem dict_inv_upsert {α : Type} (P : α → Prop) (d : Dict α) (k : Str) (v : α)
    (hd : ∀ k' v', getD? d k' = some v' → P v') (hv : P v) :
    ∀ k' v', getD? (upsert d k v) k' = some v' → P v' := by
  intro k' v' h
  rw [getD?_upsert] at h
  by_cases hk : k' = k
  · rw [if_pos hk] at h
    injection h with h
    exact h ▸ hv
  · rw [if_neg hk] at h
    exact hd k' v' h

theorem foldl_inv {α β : Type} (step : β → α → β) (P : β → Prop)
    (hstep : ∀ t a, P t → P (step t a)) :
    ∀ (l : List α) (t : β), P t → P (l.foldl step t) := by
  intro l
  induction l with
  | nil => intro t h; exact h
  | cons a l ih => intro t h; exact ih (step t a) (hstep t a h)

theorem load_people_qidOk (ps : List Person) :
    ∀ k v, getD? (load_people ps).qid_by_id k = some v → QidOk v := by
  unfold load_people
  refine foldl_inv peopleStep
    (fun t => ∀ k v, getD? t.qid_by_id k = some v → QidOk v) ?_ ps ⟨[], []⟩ ?_
  · intro t p h
    simp only [peopleStep]
    split
    · exact dict_inv_upsert QidOk t.qid_by_id p.pid _ h (QidOk_extract p.xref)
    · exact dict_inv_upsert QidOk t.qid_by_id p.pid _ h (QidOk_extract p.xref)
  · intro k v h
    simp [getD?] at h

def PlaceQidInv (t : PlaceTbls) : Prop :=
  ∀ k v, getD? t.qid_by_id k = some v → QidOk v

mutual
theorem walkPlace_qidOk (t : PlaceTbls) (el : PlaceNode) (h : PlaceQidInv t) :
    PlaceQidInv (walkPlace t el) := by
  cases el with
  | mk pid xref nts children =>
    rw [walkPlace]
    apply walkPlaces_qidOk
    split
    · exact dict_inv_upsert QidOk t.qid_by_id pid _ h (QidOk_extract xref)
    · exact h
termination_by sizeOf el

theorem walkPlaces_qidOk (t : PlaceTbls) (els : PlaceForest) (h : PlaceQidInv t) :
    PlaceQidInv (walkPlaces t els) := by
  cases els with
  | nil => rw [walkPlaces]; exact h
  | cons el rest =>
    rw [walkPlaces]
    exact walkPlaces_qidOk (walkPlace t el) rest (walkPlace_qidOk t el h)
termination_by sizeOf els
end

theorem load_places_qidOk (forest : PlaceForest) :
    ∀ k v, getD? (load_places forest).qid_by_id k = some v → QidOk v := by
  unfold load_places
  refine walkPlaces_qidOk ⟨[], []⟩ forest ?_
  intro k v h
  simp [getD?] at h

theorem load_texts_qidOk (ts : List TextRec) :
    ∀ k v, getD? (load_texts ts).qid_by_id k = some v → QidOk v := by
  unfold load_texts
  refine foldl_inv textStep
    (fun t => ∀ k v, getD? t.qid_by_id k = some v → QidOk v) ?_ ts ⟨[], [], []⟩ ?_
  · intro t tr h
    simp only [textStep]
    split
    · split
      · exact dict_inv_upsert QidOk t.qid_by_id tr.tid _ h (QidOk_extract tr.xref)
      · exact dict_inv_upsert QidOk t.qid_by_id tr.tid _ h (QidOk_extract tr.xref)
    · exact dict_inv_upsert QidOk t.qid_by_id tr.tid _ h (QidOk_extract tr.xref)
  · intro k v h
    simp [getD?] at h

theorem load_texts_normTitleOk (ts : List TextRec) :
    ∀ k v, getD? (load_texts ts).qid_by_norm_title k = some v → v ≠ [] := by
  unfold load_texts
  refine foldl_inv textStep
    (fun t => ∀ k v, getD? t.qid_by_norm_title k = some v → v ≠ []) ?_ ts ⟨[], [], []⟩ ?_
  · intro t tr h
    simp only [textStep]
    split
    · cases hq : extract_qidOpt tr.xref with
      | some q =>
        simp only [hq]
        exact dict_inv_upsert (fun v => v ≠ []) t.qid_by_norm_title _ q h
          (extract_qidOpt_ne_nil hq)
      | none => simp only [hq]; exact h
    · exact h
  · intro k v h
    simp [getD?] at h

theorem load_libraries_qidOk (ls : List LibraryRec) :
    ∀ k v, getD? (load_libraries ls).qid_by_id k = some v → QidOk v := by
  unfold load_libraries
  refine foldl_inv libStep
    (fun t => ∀ k v, getD? t.qid_by_id k = some v → QidOk v) ?_ ls ⟨[], []⟩ ?_
  · intro t l h
    simp only [libStep]
    split
    · exact dict_inv_upsert QidOk t.qid_by_id l.lid _ h (QidOk_extract l.xref)
    · exact h
  · intro k v h
    simp [getD?] at h

theorem load_libraries_nameOk (ls : List LibraryRec) :
    ∀ k v, getD? (load_libraries ls).name_by_id k = some v → v ≠ [] := by
  unfold load_libraries
  refine foldl_inv libStep
    (fun t => ∀ k v, getD? t.name_by_id k = some v → v ≠ []) ?_ ls ⟨[], []⟩ ?_
  · intro t l h
    simp only [libStep]
    split
    next hl =>
      refine dict_inv_upsert (fun v => v ≠ []) t.name_by_id l.lid _ h ?_
      split
      next hn => exact hn
      next hn => exact hl
    next => exact h
  · intro k v h
    simp [getD?] at h

-- ----------------------------------------------------------------------
-- C1: a resolved external identifier forces the external subject
-- ----------------------------------------------------------------------

theorem emitPersonEntry_subj (labels : Dict Str) (pid q : Str) (hq : q ≠ []) :
    ∀ tr ∈ emitPersonEntry labels pid (some q), tr.1 = Subj.wd q := by
  intro tr htr
  simp only [emitPersonEntry] at htr
  rw [show pyTruthyOpt (some q) = true by simp [pyTruthyOpt, hq]] at htr
  simp only [if_true] at htr
  rcases List.mem_cons.mp htr with rfl | htr
  · rfl
  · split at htr
    · simp only [List.mem_cons, List.not_mem_nil, or_false] at htr
      rcases htr with rfl | rfl <;> rfl
    · simp at htr

theorem emitTextEntry_subj (titles : Dict Str) (tid q : Str) (hq : q ≠ []) :
    ∀ tr ∈ emitTextEntry titles tid (some q), tr.1 = Subj.wd q := by
  intro tr htr
  simp only [emitTextEntry] at htr
  rw [show pyTruthyOpt (some q) = true by simp [pyTruthyOpt, hq]] at htr
  simp only [if_true] at htr
  rcases List.mem_cons.mp htr with rfl | htr
  · rfl
  · split at htr
    · simp only [List.mem_cons, List.not_mem_nil, or_false] at htr
      rcases htr with rfl | rfl <;> rfl
    · simp at htr

theorem emitLibraryEntry_subj (qids : Dict (Option Str)) (lid nm q : Str)
    (hq : q ≠ []) (h : getD? qids lid = some (some q)) :
    ∀ tr ∈ emitLibraryEntry qids lid nm, tr.1 = Subj.wd q := by
  intro tr htr
  simp only [emitLibraryEntry, h, Option.join] at htr
  rw [show ((some (some q)).bind fun a => id a) = some q from rfl,
    show pyTruthyOpt (some q) = true by simp [pyTruthyOpt, hq]] at htr
  simp only [if_true, List.mem_cons, List.not_mem_nil, or_false] at htr
  rcases htr with rfl | rfl | rfl | rfl <;> rfl

theorem emitPlaceOwn_subj (qidTbl : Dict (Option Str)) (tok : Nat → Str)
    (el : PlaceNode) (n : Nat) (q : Str) (hq : q ≠ [])
    (h : getD? qidTbl el.pid = some (some q)) :
    ∀ tr ∈ (emitPlaceOwn qidTbl tok el n).1, tr.1 = Subj.wd q := by
  intro tr htr
  simp only [emitPlaceOwn, h, Option.join] at htr
  rw [show ((some (some q)).bind fun a => id a) = some q from rfl,
    show pyTruthyOpt (some q) = true by simp [pyTruthyOpt, hq]] at htr
  simp only [if_true] at htr
  rcases List.mem_cons.mp htr with rfl | htr
  · rfl
  · cases hn : el.names with
    | nil => rw [hn] at htr; simp at htr
    | cons nm rest =>
      rw [hn] at htr
      rcases List.mem_cons.mp htr with rfl | htr
      · rfl
      rcases List.mem_cons.mp htr with rfl | htr
      · rfl
      obtain ⟨x, -, rfl⟩ := List.mem_map.mp htr
      rfl

/-- C1: for every authority record (person, place, text, library) whose
    external identifier was resolved by the loader, every statement the
    emitter adds for that record uses the external `wd:` subject with that
    identifier, never a locally minted `mira:` subject. -/
theorem C1_resolved_external_subject :
    (∀ (ps : List Person) (pid q : Str),
      getD? (load_people ps).qid_by_id pid = some (some q) →
      ∀ tr ∈ emitPersonEntry (load_people ps).label_by_id pid (some q),
        tr.1 = Subj.wd q) ∧
    (∀ (forest : PlaceForest) (tok : Nat → Str) (el : PlaceNode) (n : Nat) (q : Str),
      getD? (load_places forest).qid_by_id el.pid = some (some q) →
      ∀ tr ∈ (emitPlaceOwn (load_places forest).qid_by_id tok el n).1,
        tr.1 = Subj.wd q) ∧
    (∀ (ts : List TextRec) (tid q : Str),
      getD? (load_texts ts).qid_by_id tid = some (some q) →
      ∀ tr ∈ emitTextEntry (load_texts ts).title_by_id tid (some q),
        tr.1 = Subj.wd q) ∧
    (∀ (ls : List LibraryRec) (lid nm q : Str),
      getD? (load_libraries ls).qid_by_id lid = some (some q) →
      ∀ tr ∈ emitLibraryEntry (load_libraries ls).qid_by_id lid nm,
        tr.1 = Subj.wd q) := by
  refine ⟨?_, ?_, ?_, ?_⟩
  · intro ps pid q h
    exact emitPersonEntry_subj _ pid q (load_people_qidOk ps pid (some q) h q rfl)
  · intro forest tok el n q h
    exact emitPlaceOwn_subj _ tok el n q
      (load_places_qidOk forest el.pid (some q) h q rfl) h
  · intro ts tid q h
    exact emitTextEntry_subj _ tid q (load_texts_qidOk ts tid (some q) h q rfl)
  · intro ls lid nm q h
    exact emitLibraryEntry_subj _ lid nm q
      (load_libraries_qidOk ls lid (some q) h q rfl) h

def demoPeople : List Person :=
  [⟨"p1".toList, some "Ada".toList, some "L".toList, some "see Q7".toList⟩]

/-- Witness for C1: a person with a resolvable cross-reference gets the
    external subject in its type statement. -/
theorem C1_resolved_external_subject_witness :
    getD? (load_people demoPeople).qid_by_id "p1".toList = some (some "Q7".toList) ∧
    (Subj.wd "Q7".toList, Pred.rdfType, Obj.ent (.wd Q_HUMAN)).1 = Subj.wd "Q7".toList :=
  ⟨by decide,
   C1_resolved_external_subject.1 demoPeople "p1".toList "Q7".toList (by decide)
     (Subj.wd "Q7".toList, Pred.rdfType, Obj.ent (.wd Q_HUMAN)) (by decide)⟩

-- ----------------------------------------------------------------------
-- C4: the place walk registers exactly the non-empty-id nodes, pre-order
-- ----------------------------------------------------------------------

mutual
/-- Pre-order listing of a place tree. -/
def preorder (el : PlaceNode) : List PlaceNode :=
  match el with
  | .mk pid xref nts children => .mk pid xref nts children :: preorderF children

/-- Pre-order listing of a place forest. -/
def preorderF (els : PlaceForest) : List PlaceNode :=
  match els with
  | .nil => []
  | .cons el rest => preorder el ++ preorderF rest
end

/-- The registration `walk` performs on one visited node. -/
def regStep (t : PlaceTbls) (el : PlaceNode) : PlaceTbls :=
  if el.pid ≠ [] then
    { qid_by_id := upsert t.qid_by_id el.pid (placeQid el),
      names_by_id := upsert t.names_by_id el.pid el.names }
  else t

mutual
theorem walkPlace_eq_fold (t : PlaceTbls) (el : PlaceNode) :
    walkPlace t el = (preorder el).foldl regStep t := by
  cases el with
  | mk pid xref nts children =>
    rw [walkPlace, preorder, List.foldl_cons, walkPlaces_eq_fold]
    rfl
termination_by sizeOf el

theorem walkPlaces_eq_fold (t : PlaceTbls) (els : PlaceForest) :
    walkPlaces t els = (preorderF els).foldl regStep t := by
  cases els with
  | nil => rw [walkPlaces, preorderF]; rfl
  | cons el rest =>
    rw [walkPlaces, preorderF, List.foldl_append, walkPlace_eq_fold,
      walkPlaces_eq_fold]
termination_by sizeOf els
end

/-- The qid entries contributed by the nodes of `l` that carry an id. -/
def registrations (l : List PlaceNode) : List (Str × Option Str) :=
  l.filterMap (fun el => if el.pid ≠ [] then some (el.pid, placeQid el) else none)

/-- The name entries contributed by the nodes of `l` that carry an id. -/
def nameRegistrations (l : List PlaceNode) : List (Str × List Str) :=
  l.filterMap (fun el => if el.pid ≠ [] then some (el.pid, el.names) else none)

/-- The non-empty local identifiers of the nodes of `l`, in order. -/
def nonemptyPids (l : List PlaceNode) : List Str :=
  l.filterMap (fun el => if el.pid ≠ [] then some el.pid else none)

theorem any_key_iff_mem {α : Type} (d : Dict α) (k : Str) :
    d.any (fun p => decide (p.1 = k)) = true ↔ k ∈ d.map Prod.fst := by
  rw [List.any_eq_true]
  constructor
  · rintro ⟨p, hp, he⟩
    exact List.mem_map.mpr ⟨p, hp, by simpa using he⟩
  · intro h
    obtain ⟨p, hp, he⟩ := List.mem_map.mp h
    exact ⟨p, hp, by simpa using he⟩

theorem upsert_append_of_not_mem {α : Type} (d : Dict α) (k : Str) (v : α)
    (h : k ∉ d.map Prod.fst) : upsert d k v = d ++ [(k, v)] := by
  unfold upsert
  rw [if_neg]
  intro hc
  exact h ((any_key_iff_mem d k).mp hc)

theorem map_fst_registrations (l : List PlaceNode) :
    (registrations l).map Prod.fst = nonemptyPids l := by
  induction l with
  | nil => rfl
  | cons el rest ih =>
    by_cases hp : el.pid ≠ [] <;>
      simp [registrations, nonemptyPids, List.filterMap_cons, hp] <;>
      simpa [registrations, nonemptyPids] using ih

theorem map_fst_nameRegistrations (l : List PlaceNode) :
    (nameRegistrations l).map Prod.fst = nonemptyPids l := by
  induction l with
  | nil => rfl
  | cons el rest ih =>
    by_cases hp : el.pid ≠ [] <;>
      simp [nameRegistrations, nonemptyPids, List.filterMap_cons, hp] <;>
      simpa [nameRegistrations, nonemptyPids] using ih

theorem fold_reg_tables :
    ∀ (l : List PlaceNode) (t : PlaceTbls),
      (nonemptyPids l).Nodup →
      (∀ k ∈ t.qid_by_id.map Prod.fst, k ∉ nonemptyPids l) →
      (∀ k ∈ t.names_by_id.map Prod.fst, k ∉ nonemptyPids l) →
      (l.foldl regStep t).qid_by_id = t.qid_by_id ++ registrations l ∧
      (l.foldl regStep t).names_by_id = t.names_by_id ++ nameRegistrations l := by
  intro l
  induction l with
  | nil =>
    intro t _ _ _
    simp [registrations, nameRegistrations]
  | cons el rest ih =>
    intro t hnd hq hn
    by_cases hp : el.pid ≠ []
    · have hpidspids : nonemptyPids (el :: rest) = el.pid :: nonemptyPids rest := by
        simp [nonemptyPids, List.filterMap_cons, hp]
      rw [hpidspids] at hnd hq hn
      have hndr : (nonemptyPids rest).Nodup := hnd.of_cons
      have hpid_not : el.pid ∉ nonemptyPids rest := (List.nodup_cons.mp hnd).1
      have hstep : regStep t el =
          { qid_by_id := upsert t.qid_by_id el.pid (placeQid el),
            names_by_id := upsert t.names_by_id el.pid el.names } := by
        rw [regStep, if_pos hp]
      have hknq : el.pid ∉ t.qid_by_id.map Prod.fst := by
        intro hc
        exact hq el.pid hc (List.mem_cons_self _ _)
      have hknn : el.pid ∉ t.names_by_id.map Prod.fst := by
        intro hc
        exact hn el.pid hc (List.mem_cons_self _ _)
      have hq' : upsert t.qid_by_id el.pid (placeQid el)
          = t.qid_by_id ++ [(el.pid, placeQid el)] :=
        upsert_append_of_not_mem _ _ _ hknq
      have hn' : upsert t.names_by_id el.pid el.names
          = t.names_by_id ++ [(el.pid, el.names)] :=
        upsert_append_of_not_mem _ _ _ hknn
      have ihres := ih (regStep t el) hndr ?_ ?_
      · rw [List.foldl_cons]
        rw [ihres.1, ihres.2, hstep]
        constructor
        · show upsert t.qid_by_id el.pid (placeQid el) ++ registrations rest
              = t.qid_by_id ++ registrations (el :: rest)
          rw [hq', show registrations (el :: rest)
              = (el.pid, placeQid el) :: registrations rest by
            simp [registrations, List.filterMap_cons, hp]]
          simp
        · show upsert t.names_by_id el.pid el.names ++ nameRegistrations rest
              = t.names_by_id ++ nameRegistrations (el :: rest)
          rw [hn', show nameRegistrations (el :: rest)
              = (el.pid, el.names) :: nameRegistrations rest by
            simp [nameRegistrations, List.filterMap_cons, hp]]
          simp
      · intro k hk
        rw [hstep] at hk
        simp only [hq'] at hk
        rw [List.map_append] at hk
        rcases List.mem_append.mp hk with hk | hk
        · exact fun hc => hq k hk (List.mem_cons_of_mem _ hc)
        · simp at hk
          exact hk ▸ hpid_not
      · intro k hk
        rw [hstep] at hk
        simp only [hn'] at hk
        rw [List.map_append] at hk
        rcases List.mem_append.mp hk with hk | hk
        · exact fun hc => hn k hk (List.mem_cons_of_mem _ hc)
        · simp at hk
          exact hk ▸ hpid_not
    · have hpidspids : nonemptyPids (el :: rest) = nonemptyPids rest := by
        simp [nonemptyPids, List.filterMap_cons, hp]
      rw [hpidspids] at hnd hq hn
      have hstep : regStep t el = t := by rw [regStep, if_neg hp]
      have hregs : registrations (el :: rest) = registrations rest := by
        simp [registrations, List.filterMap_cons, hp]
      have hnregs : nameRegistrations (el :: rest) = nameRegistrations rest := by
        simp [nameRegistrations, List.filterMap_cons, hp]
      rw [List.foldl_cons, hstep, hregs, hnregs]
      exact ih t hnd hq hn

theorem getD?_of_mem_nodup {α : Type} :
    ∀ (d : Dict α), (d.map Prod.fst).Nodup →
      ∀ (k : Str) (v : α), (k, v) ∈ d → getD? d k = some v := by
  intro d
  induction d with
  | nil => intro _ k v h; simp at h
  | cons p d ih =>
    intro hnd k v h
    rcases List.mem_cons.mp h with rfl | h
    · simp [getD?_cons]
    · have hk : p.1 ≠ k := by
        intro hc
        have : k ∈ d.map Prod.fst := List.mem_map.mpr ⟨(k, v), h, rfl⟩
        rw [List.map_cons] at hnd
        exact (List.nodup_cons.mp hnd).1 (hc ▸ this)
      rw [getD?_cons, if_neg hk]
      exact ih (by rw [List.map_cons] at hnd; exact hnd.of_cons) k v h

/-- C4: with the record-set invariant that local identifiers are unique,
    the place loader's pre-order walk registers exactly the nodes carrying a
    non-empty local identifier, once each and in pre-order; a node with an
    empty identifier is skipped (never a key) but its descendants are still
    registered, and every registered node's entry holds that node's own
    resolved identifier and names. -/
theorem C4_place_registration :
    ∀ forest : PlaceForest, (nonemptyPids (preorderF forest)).Nodup →
      (load_places forest).qid_by_id = registrations (preorderF forest) ∧
      (load_places forest).names_by_id = nameRegistrations (preorderF forest) ∧
      getD? (load_places forest).qid_by_id [] = none ∧
      (∀ el ∈ preorderF forest, el.pid ≠ [] →
        getD? (load_places forest).qid_by_id el.pid = some (placeQid el) ∧
        getD? (load_places forest).names_by_id el.pid = some el.names) := by
  intro forest hnd
  have hfold := fold_reg_tables (preorderF forest) ⟨[], []⟩ hnd
    (by intro k hk; simp [getD?] at hk) (by intro k hk; simp [getD?] at hk)
  have e1 : (load_places forest).qid_by_id = registrations (preorderF forest) := by
    unfold load_places
    rw [walkPlaces_eq_fold]
    simpa using hfold.1
  have e2 : (load_places forest).names_by_id = nameRegistrations (preorderF forest) := by
    unfold load_places
    rw [walkPlaces_eq_fold]
    simpa using hfold.2
  refine ⟨e1, e2, ?_, ?_⟩
  · rw [e1]
    apply getD?_not_mem
    rw [Bool.eq_false_iff]
    intro hc
    have := (any_key_iff_mem _ _).mp hc
    rw [map_fst_registrations] at this
    obtain ⟨el, -, he⟩ := List.mem_filterMap.mp this
    by_cases hp : el.pid ≠ []
    · rw [if_pos hp] at he
      injection he with he
      exact hp he
    · rw [if_neg hp] at he
      exact absurd he (by simp)
  · intro el hel hp
    constructor
    · rw [e1]
      apply getD?_of_mem_nodup
      · rw [map_fst_registrations]; exact hnd
      · exact List.mem_filterMap.mpr ⟨el, hel, by rw [if_pos hp]⟩
    · rw [e2]
      apply getD?_of_mem_nodup
      · rw [map_fst_nameRegistrations]; exact hnd
      · exact List.mem_filterMap.mpr ⟨el, hel, by rw [if_pos hp]⟩

def demoForest : PlaceForest :=
  .cons (.mk "a".toList none [some "Alba".toList]
    (.cons (.mk [] none [] (.cons (.mk "b".toList (some "Q9".toList) [] .nil) .nil)) .nil))
    .nil

/-- Witness for C4: a three-level forest whose middle node lacks an id. -/
theorem C4_place_registration_witness :
    (nonemptyPids (preorderF demoForest)).Nodup ∧
    (load_places demoForest).qid_by_id = registrations (preorderF demoForest) :=
  ⟨by decide, (C4_place_registration demoForest (by decide)).1⟩

-- ----------------------------------------------------------------------
-- C7: the manuscript label
-- ----------------------------------------------------------------------

/-- Is this statement one of the label pair? -/
def isLabelTriple (t : Triple) : Bool :=
  decide (t.2.1 = Pred.rdfsLabel) || decide (t.2.1 = Pred.skosPrefLabel)

theorem filter_label_nil (l : List Triple)
    (h : ∀ t ∈ l, isLabelTriple t = false) : l.filter isLabelTriple = [] := by
  induction l with
  | nil => rfl
  | cons t l ih =>
    rw [List.filter_cons, if_neg (by simp [h t (List.mem_cons_self t l)])]
    exact ih (fun t' ht' => h t' (List.mem_cons_of_mem t ht'))

theorem msShelf_no_label (subj : Subj) (shelf : Str) :
    (msShelf subj shelf).filter isLabelTriple = [] := by
  apply filter_label_nil
  intro t ht
  unfold msShelf at ht
  split at ht
  · rcases List.mem_singleton.mp ht with rfl
    simp [isLabelTriple]
  · simp at ht

theorem msCollection_no_label (lib : LibTbls) (subj : Subj) (libID : Option Str) :
    (msCollection lib subj libID).filter isLabelTriple = [] := by
  apply filter_label_nil
  intro t ht
  unfold msCollection at ht
  split at ht
  · split at ht
    · split at ht
      · rcases List.mem_singleton.mp ht with rfl
        simp [isLabelTriple]
      · rcases List.mem_singleton.mp ht with rfl
        simp [isLabelTriple]
    · rcases List.mem_singleton.mp ht with rfl
      simp [isLabelTriple]
  · exact absurd ht (by simp)

theorem msYear_no_label (subj : Subj) (a b : Option Str) :
    (msYear subj a b).filter isLabelTriple = [] := by
  apply filter_label_nil
  intro t ht
  unfold msYear at ht
  split at ht
  · rcases List.mem_singleton.mp ht with rfl
    simp [isLabelTriple]
  · simp at ht

theorem msOriginPlace_no_label (tbl : Dict (Option Str)) (subj : Subj)
    (op : Option (Option Str)) :
    (msOriginPlace tbl subj op).filter isLabelTriple = [] := by
  apply filter_label_nil
  intro t ht
  unfold msOriginPlace at ht
  split at ht
  · dsimp only at ht
    split at ht
    · split at ht
      · split at ht
        · rcases List.mem_singleton.mp ht with rfl
          simp [isLabelTriple]
        · rcases List.mem_singleton.mp ht with rfl
          simp [isLabelTriple]
      · rcases List.mem_singleton.mp ht with rfl
        simp [isLabelTriple]
    · exact absurd ht (by simp)
  · exact absurd ht (by simp)

theorem msFolios_no_label (subj : Subj) (raw : Option Str) :
    (msFolios subj raw).filter isLabelTriple = [] := by
  apply filter_label_nil
  intro t ht
  simp only [msFolios] at ht
  split at ht
  · rcases List.mem_singleton.mp ht with rfl
    simp [isLabelTriple]
  · exact absurd ht (by simp)

theorem msDim_no_label (subj : Subj) (raw : Option Str) (p : Pred)
    (hp1 : p ≠ Pred.rdfsLabel) (hp2 : p ≠ Pred.skosPrefLabel) :
    (msDim subj raw p).filter isLabelTriple = [] := by
  apply filter_label_nil
  intro t ht
  simp only [msDim] at ht
  split at ht
  · rcases List.mem_singleton.mp ht with rfl
    simp [isLabelTriple, hp1, hp2]
  · exact absurd ht (by simp)

theorem msLink_no_label (subj : Subj) (l : Option (Option Str)) :
    (msLink subj l).filter isLabelTriple = [] := by
  apply filter_label_nil
  intro t ht
  unfold msLink at ht
  split at ht
  · split at ht
    · rcases List.mem_singleton.mp ht with rfl
      simp [isLabelTriple]
    · exact absurd ht (by simp)
  · exact absurd ht (by simp)

theorem exemplarTriples_no_label (idx : Dict Str) (subj : Subj) (titles : List Str) :
    (exemplarTriples idx subj titles).filter isLabelTriple = [] := by
  apply filter_label_nil
  intro t ht
  unfold exemplarTriples at ht
  obtain ⟨raw, -, ht⟩ := List.mem_flatMap.mp ht
  dsimp only at ht
  split at ht
  · split at ht
    · split at ht
      · rcases List.mem_singleton.mp ht with rfl
        simp [isLabelTriple]
      · exact absurd ht (by simp)
    · exact absurd ht (by simp)
  · exact absurd ht (by simp)

theorem msLabelTriples_filter (subj : Subj) (label : Str) :
    (msLabelTriples subj label).filter isLabelTriple = msLabelTriples subj label := by
  simp [msLabelTriples, isLabelTriple, List.filter]

/-- C7: the manuscript label is the em-dash concatenation
    "library — shelf" when both the shelf mark and a resolvable owning-library
    name are available, the shelf mark alone when only it is available, and
    the placeholder "MIRA manuscript <id>" when the shelf mark is absent; the
    emission carries exactly one rdfs:label and one skos:prefLabel statement,
    both with that same text. -/
theorem C7_manuscript_label :
    ∀ (ls : List LibraryRec) (plTbl : Dict (Option Str)) (idx : Dict Str)
      (tok : Nat → Str) (ms : Manuscript) (n : Nat),
      ms.mid ≠ [] →
      (let lib := load_libraries ls
       let shelf := normOpt ms.shelfmarkRaw
       let libName : Option Str :=
         if pyTruthyOpt ms.libraryID = true then getD? lib.name_by_id (pyVal ms.libraryID)
         else none
       let label := msLabel shelf libName ms.mid
       (∀ nm, libName = some nm → shelf ≠ [] →
          label = nm ++ " — ".toList ++ shelf) ∧
       (libName = none → shelf ≠ [] → label = shelf) ∧
       (shelf = [] → label = "MIRA manuscript ".toList ++ ms.mid) ∧
       (emit_manuscript lib plTbl idx tok ms n).1.filter isLabelTriple
         = msLabelTriples (local_uri "manuscript".toList ms.mid) label) := by
  intro ls plTbl idx tok ms n hmid
  refine ⟨?_, ?_, ?_, ?_⟩
  · intro nm hnm hs
    have hnm' : nm ≠ [] := by
      by_cases hl : pyTruthyOpt ms.libraryID = true
      · rw [if_pos hl] at hnm
        exact load_libraries_nameOk ls (pyVal ms.libraryID) nm hnm
      · rw [if_neg hl] at hnm
        exact absurd hnm (by simp)
    unfold msLabel
    rw [if_pos ⟨hs, by rw [hnm]; simpa [pyTruthyOpt] using hnm'⟩, hnm]
    rfl
  · intro hnone hs
    unfold msLabel
    rw [hnone]
    rw [if_neg (by simp [pyTruthyOpt]), if_pos hs]
  · intro hs
    unfold msLabel
    rw [if_neg (by simp [hs]), if_neg (by simp [hs])]
  · show ((local_uri "manuscript".toList
        (if ms.mid ≠ [] then (ms.mid, n) else ("ms_".toList ++ tok n, n + 1)).1,
        Pred.p31, Obj.ent (.wd Q_MANUSCRIPT)) :: _).filter isLabelTriple = _
    rw [if_pos hmid]
    rw [List.filter_cons, if_neg (by simp [isLabelTriple])]
    simp only [List.filter_append, msShelf_no_label, msCollection_no_label,
      msYear_no_label, msOriginPlace_no_label, msFolios_no_label,
      msDim_no_label _ _ Pred.p2048 (by decide) (by decide),
      msDim_no_label _ _ Pred.p2049 (by decide) (by decide),
      msLink_no_label, exemplarTriples_no_label, msLabelTriples_filter,
      List.nil_append, List.append_nil]

def demoLibs : List LibraryRec :=
  [⟨"L1".toList, some "Example Library".toList, none⟩]

def demoMs : Manuscript :=
  { mid := "m1".toList, shelfmarkRaw := some "MS 123".toList,
    libraryID := some "L1".toList, termPost := none, termAnte := none,
    originPlace := none, foliosRaw := none, pageHRaw := none, pageWRaw := none,
    linkHref := none, itemTitles := [] }

/-- Witness for C7: shelf mark and resolvable library name produce the
    em-dash label. -/
theorem C7_manuscript_label_witness :
    demoMs.mid ≠ [] ∧
    msLabel (normOpt demoMs.shelfmarkRaw)
        (if pyTruthyOpt demoMs.libraryID = true
         then getD? (load_libraries demoLibs).name_by_id (pyVal demoMs.libraryID)
         else none)
        demoMs.mid
      = "Example Library".toList ++ " — ".toList ++ normOpt demoMs.shelfmarkRaw :=
  ⟨by decide,
   (C7_manuscript_label demoLibs [] [] (fun _ => []) demoMs 0 (by decide)).1
     "Example Library".toList (by decide) (by decide)⟩

-- ----------------------------------------------------------------------
-- C10: the normalized-title index is last-write-wins
-- ----------------------------------------------------------------------

/-- Does this text record write the normalized-title index at key `k`? -/
def writesKey (tr : TextRec) (k : Str) : Bool :=
  decide (normOpt tr.title ≠ []) && (extract_qidOpt tr.xref).isSome &&
    decide (normalize_title_key (normOpt tr.title) = k)

/-- The value this record writes at key `k` (when it writes). -/
def writeVal (tr : TextRec) (k : Str) : Option Str :=
  if writesKey tr k then extract_qidOpt tr.xref else none

theorem textStep_writes {t : TextTbls} {tr : TextRec} {k q : Str}
    (hw : writesKey tr k = true) (hq : extract_qidOpt tr.xref = some q) :
    getD? (textStep t tr).qid_by_norm_title k = some q := by
  simp only [writesKey, Bool.and_eq_true, decide_eq_true_eq] at hw
  obtain ⟨⟨ht, -⟩, hk⟩ := hw
  simp only [textStep]
  rw [if_pos ht, hq]
  show getD? (upsert _ (normalize_title_key (normOpt tr.title)) q) k = some q
  rw [getD?_upsert, if_pos hk.symm]

theorem textStep_skips {t : TextTbls} {tr : TextRec} {k : Str}
    (hw : writesKey tr k = false) :
    getD? (textStep t tr).qid_by_norm_title k = getD? t.qid_by_norm_title k := by
  simp only [textStep]
  by_cases ht : normOpt tr.title ≠ []
  · rw [if_pos ht]
    cases hq : extract_qidOpt tr.xref with
    | some q =>
      have hk : normalize_title_key (normOpt tr.title) ≠ k := by
        intro hc
        rw [writesKey] at hw
        simp [ht, hq, hc] at hw
      show getD? (upsert _ (normalize_title_key (normOpt tr.title)) q) k = _
      rw [getD?_upsert, if_neg (fun hc => hk hc.symm)]
    | none => rfl
  · rw [if_neg ht]

theorem texts_fold_index (k : Str) :
    ∀ (l : List TextRec) (t : TextTbls),
      getD? ((l.foldl textStep t).qid_by_norm_title) k
        = match (l.filterMap (fun tr => writeVal tr k)).getLast? with
          | some q => some q
          | none => getD? t.qid_by_norm_title k := by
  intro l
  induction l with
  | nil => intro t; simp
  | cons tr l ih =>
    intro t
    rw [List.foldl_cons, ih]
    cases hw : writesKey tr k with
    | true =>
      have hsome : (extract_qidOpt tr.xref).isSome = true := by
        rw [writesKey] at hw
        simp only [Bool.and_eq_true] at hw
        exact hw.1.2
      obtain ⟨q, hq⟩ := Option.isSome_iff_exists.mp hsome
      have hval : writeVal tr k = some q := by simp [writeVal, hw, hq]
      rw [show (tr :: l).filterMap (fun tr => writeVal tr k)
          = q :: l.filterMap (fun tr => writeVal tr k) by
        simp [List.filterMap_cons, hval]]
      cases hrest : l.filterMap (fun tr => writeVal tr k) with
      | nil => simp [hrest, textStep_writes hw hq]
      | cons b bs =>
        obtain ⟨x, hx⟩ := Option.isSome_iff_exists.mp
          (List.getLast?_isSome.mpr (List.cons_ne_nil b bs))
        simp [hrest, hx]
    | false =>
      have hval : writeVal tr k = none := by simp [writeVal, hw]
      rw [show (tr :: l).filterMap (fun tr => writeVal tr k)
          = l.filterMap (fun tr => writeVal tr k) by
        simp [List.filterMap_cons, hval]]
      cases hrest : l.filterMap (fun tr => writeVal tr k) with
      | nil => simp [hrest, textStep_skips hw]
      | cons b bs =>
        obtain ⟨x, hx⟩ := Option.isSome_iff_exists.mp
          (List.getLast?_isSome.mpr (List.cons_ne_nil b bs))
        simp [hrest, hx]

/-- C10: when two text records both carry a non-empty title and a resolved
    external identifier and their titles normalise to the same key, the
    normalized-title index holds the identifier of the record occurring later
    in document order (last write wins), so a matching manuscript
    content-item title yields exactly one exemplar-of-work statement pointing
    at the later record's identifier. -/
theorem C10_title_index_last_write_wins :
    ∀ (l1 l2 l3 : List TextRec) (t1 t2 : TextRec) (k q1 q2 : Str),
      writesKey t1 k = true → writesKey t2 k = true →
      extract_qidOpt t1.xref = some q1 → extract_qidOpt t2.xref = some q2 →
      (∀ tr ∈ l3, writesKey tr k = false) →
      getD? (load_texts (l1 ++ t1 :: l2 ++ t2 :: l3)).qid_by_norm_title k
        = some q2 ∧
      (∀ (subj : Subj) (raw : Str), norm raw ≠ [] →
        normalize_title_key (norm raw) = k →
        exemplarTriples
            (load_texts (l1 ++ t1 :: l2 ++ t2 :: l3)).qid_by_norm_title subj [raw]
          = [(subj, Pred.p1574, Obj.ent (.wd q2))]) := by
  intro l1 l2 l3 t1 t2 k q1 q2 hw1 hw2 hq1 hq2 hl3
  have hv1 : writeVal t1 k = some q1 := by simp [writeVal, hw1, hq1]
  have hv2 : writeVal t2 k = some q2 := by simp [writeVal, hw2, hq2]
  have hl3' : l3.filterMap (fun tr => writeVal tr k) = [] := by
    rw [List.filterMap_eq_nil_iff]
    intro tr htr
    simp [writeVal, hl3 tr htr]
  have hidx : getD? (load_texts (l1 ++ t1 :: l2 ++ t2 :: l3)).qid_by_norm_title k
      = some q2 := by
    unfold load_texts
    rw [texts_fold_index]
    rw [show (l1 ++ t1 :: l2 ++ t2 :: l3).filterMap (fun tr => writeVal tr k)
        = (l1.filterMap (fun tr => writeVal tr k)
            ++ q1 :: l2.filterMap (fun tr => writeVal tr k)) ++ [q2] by
      simp [List.filterMap_append, List.filterMap_cons, hv1, hv2, hl3']]
    rw [List.getLast?_concat]
  refine ⟨hidx, ?_⟩
  intro subj raw hraw hkey
  have hq2ne : q2 ≠ [] := extract_qidOpt_ne_nil hq2
  unfold exemplarTriples
  rw [List.flatMap_cons]
  dsimp only
  rw [if_pos hraw, hkey, hidx]
  simp [hq2ne]

def demoTexts : List TextRec :=
  [⟨"t1".toList, some "The King's Mirror".toList, some "x Q1 y".toList⟩,
   ⟨"t2".toList, some "the kings mirror!".toList, some "Q2".toList⟩]

/-- Witness for C10: two records with the same normalised title; the later
    record's identifier wins. -/
theorem C10_title_index_last_write_wins_witness :
    writesKey ⟨"t1".toList, some "The King's Mirror".toList, some "x Q1 y".toList⟩
        "the kings mirror".toList = true ∧
    getD? (load_texts demoTexts).qid_by_norm_title "the kings mirror".toList
      = some "Q2".toList :=
  ⟨by decide,
   (C10_title_index_last_write_wins [] [] []
      ⟨"t1".toList, some "The King's Mirror".toList, some "x Q1 y".toList⟩
      ⟨"t2".toList, some "the kings mirror!".toList, some "Q2".toList⟩
      "the kings mirror".toList "Q1".toList "Q2".toList
      (by decide) (by decide) (by decide) (by decide)
      (fun tr htr => absurd htr (by simp))).1⟩

-- ----------------------------------------------------------------------
-- C3: determinism up to the uuid fallbacks
-- ----------------------------------------------------------------------

mutual
/-- No node of this tree falls into the uuid key fallback (an empty id
    together with no usable name). -/
def placeDeterministic (el : PlaceNode) : Bool :=
  match el with
  | .mk pid xref nts children =>
    (decide (pid ≠ []) || decide (placeNames nts ≠ [])) &&
      forestDeterministic children

/-- `placeDeterministic` over a forest. -/
def forestDeterministic (els : PlaceForest) : Bool :=
  match els with
  | .nil => true
  | .cons el rest => placeDeterministic el && forestDeterministic rest
end

theorem emitPlaceOwn_tok_irrel (qidTbl : Dict (Option Str)) (tokA tokB : Nat → Str)
    (el : PlaceNode) (n : Nat) (h : el.pid ≠ [] ∨ el.names ≠ []) :
    emitPlaceOwn qidTbl tokA el n = emitPlaceOwn qidTbl tokB el n := by
  rcases h with h | h
  · simp only [emitPlaceOwn, if_pos h]
  · by_cases hp : el.pid ≠ []
    · simp only [emitPlaceOwn, if_pos hp]
    · cases hn : el.names with
      | nil => exact absurd hn h
      | cons nm rest => simp only [emitPlaceOwn, if_neg hp, hn]

mutual
theorem emit_place_tok (qidTbl : Dict (Option Str)) (tokA tokB : Nat → Str)
    (el : PlaceNode) (n : Nat) (h : placeDeterministic el = true) :
    emit_place qidTbl tokA el n = emit_place qidTbl tokB el n := by
  cases el with
  | mk pid xref nts children =>
    rw [placeDeterministic] at h
    simp only [Bool.and_eq_true, Bool.or_eq_true, decide_eq_true_eq] at h
    rw [emit_place, emit_place]
    have hown := emitPlaceOwn_tok_irrel qidTbl tokA tokB (.mk pid xref nts children) n h.1
    rw [hown, emit_places_tok qidTbl tokA tokB children _ h.2]
termination_by sizeOf el

theorem emit_places_tok (qidTbl : Dict (Option Str)) (tokA tokB : Nat → Str)
    (els : PlaceForest) (n : Nat) (h : forestDeterministic els = true) :
    emit_places qidTbl tokA els n = emit_places qidTbl tokB els n := by
  cases els with
  | nil => rfl
  | cons el rest =>
    rw [forestDeterministic] at h
    simp only [Bool.and_eq_true] at h
    rw [emit_places, emit_places, emit_place_tok qidTbl tokA tokB el n h.1]
    rw [emit_places_tok qidTbl tokA tokB rest _ h.2]
termination_by sizeOf els
end

theorem emit_manuscript_tok (lib : LibTbls) (plTbl : Dict (Option Str))
    (idx : Dict Str) (tokA tokB : Nat → Str) (ms : Manuscript) (n : Nat)
    (h : ms.mid ≠ []) :
    emit_manuscript lib plTbl idx tokA ms n = emit_manuscript lib plTbl idx tokB ms n := by
  simp only [emit_manuscript, if_pos h]

theorem emit_manuscripts_tok (lib : LibTbls) (plTbl : Dict (Option Str))
    (idx : Dict Str) (tokA tokB : Nat → Str) :
    ∀ (l : List Manuscript), (∀ ms ∈ l, ms.mid ≠ []) → ∀ n : Nat,
      emit_manuscripts lib plTbl idx tokA l n = emit_manuscripts lib plTbl idx tokB l n := by
  intro l
  induction l with
  | nil => intro _ n; rfl
  | cons ms rest ih =>
    intro h n
    rw [emit_manuscripts, emit_manuscripts,
      emit_manuscript_tok lib plTbl idx tokA tokB ms n (h ms (List.mem_cons_self ms rest)),
      ih (fun m hm => h m (List.mem_cons_of_mem ms hm))]

def cexInput : Input :=
  { people := [], places := .cons (.mk [] none [] .nil) .nil,
    texts := [], libraries := [], mss := [] }

def cexTokA : Nat → Str := fun _ => "aaaaaaaa".toList

def cexTokB : Nat → Str := fun _ => "bbbbbbbb".toList

def cexTriple : Triple :=
  (Subj.mira "place".toList "place_aaaaaaaa".toList, Pred.rdfType,
    Obj.ent (.wd Q_PLACE))

/-- C3 counterexample: an input whose manuscripts all have local identifiers
    (here: none at all) still produces different triple sets on two runs
    drawing different random tokens — a place element with neither an id nor
    a name receives a freshly generated local subject, so manuscripts are not
    the sole source of run-to-run differences. -/
theorem C3_counterexample :
    cexInput.mss = [] ∧
    cexTriple ∈ runConvert cexInput cexTokA cexTokA ∧
    cexTriple ∉ runConvert cexInput cexTokB cexTokB :=
  ⟨rfl, by decide, by decide⟩

/-- C3 (amended): two runs on identical inputs produce identical triple
    lists provided no manuscript lacks a local identifier **and no place
    lacks both a local identifier and a name** — those two uuid fallbacks
    are the only sources of run-to-run difference. -/
theorem C3_determinism :
    ∀ (inp : Input) (pA mA pB mB : Nat → Str),
      forestDeterministic inp.places = true →
      (∀ ms ∈ inp.mss, ms.mid ≠ []) →
      runConvert inp pA mA = runConvert inp pB mB := by
  intro inp pA mA pB mB hpl hms
  simp only [runConvert]
  rw [emit_places_tok _ pA pB inp.places 0 hpl,
    emit_manuscripts_tok _ _ _ mA mB inp.mss hms 0]

def detMs : Manuscript :=
  { mid := "m2".toList, shelfmarkRaw := none, libraryID := none, termPost := none,
    termAnte := none, originPlace := none, foliosRaw := none, pageHRaw := none,
    pageWRaw := none, linkHref := none, itemTitles := [] }

def detInput : Input :=
  { people := [], places := .cons (.mk "a".toList none [] .nil) .nil,
    texts := [], libraries := [], mss := [detMs] }

/-- Witness for C3: a deterministic input yields token-independent output. -/
theorem C3_determinism_witness :
    forestDeterministic detInput.places = true ∧
    runConvert detInput cexTokA cexTokA = runConvert detInput cexTokB cexTokB :=
  ⟨by decide, C3_determinism detInput cexTokA cexTokA cexTokB cexTokB
    (by decide) (by decide)⟩

-- sanity checks for the scanners (examples, not claim theorems)
example : extract_gYear "circa 1200-1250".toList = some "1200".toList := by decide
example : extract_gYear "9th century".toList = none := by decide
example : extract_gYear "850/851".toList = some "0850".toList := by decide
example : extract_gYear "MS1234".toList = none := by decide
example : extract_gYear "c. 845 AD".toList = some "0845".toList := by decide
example : extract_qid "see also Q12345, alt.".toList = some "Q12345".toList := by decide
example : extract_qid "xQ123".toList = none := by decide
example : extract_qid "".toList = none := by decide
example : safe_id "".toList = "unknown".toList := by decide
example : safe_id "a b!!c".toList = "a_b_c".toList := by decide
example : normalize_title_key "The King’s  Mirror!".toList = "the kings mirror".toList := by
  decide
example : norm "  a   b ".toList = "a b".toList := by decide

end MiRA
